import Mathlib

/-! # pc321-to-ha: register decoding, rescaling and serialisation

A shallow embedding of `main.go`.

* `F64` models the Go type `float64` (IEEE 754 binary64, round to nearest, ties to even)
  exactly, with integer mantissa and exponent; `RoundedFloat` is the named type over it and
  `F64.formatFixed` is the text `fmt.Sprintf("%.*f", prec, x)` prints.
* `JValue` is the syntax tree of a JSON document; `Payload` is a received byte payload seen
  through the `encoding/json` scanner: either rejected as malformed or parsed into a tree.
* `Unmarshal` models `json.Unmarshal(incoming.message, &data)` for `data : Pc321State`.
* `rescale` is the block of twenty `if data.X != nil` statements of the main loop,
  `Marshal` is `json.Marshal(payload)`, `iteration` is one pass of the `for` loop,
  `mainLoop` the loop and `main` the function `main`, each as the list of the log records and
  transport calls it makes.
* `scaleTable`, `Group.factor` and `canonicalNames` transcribe the scale table and the metric
  names of the specification; `fieldWidth` lists the `json` tags with their declared types.
-/

namespace Pc321

/-! ## binary64 arithmetic -/

/-- A `float64`: a finite value `(-1)^neg * mant * 2^exp`, an infinity, or a NaN.
Finite values produced by `F64.round` are canonical: `mant < 2^53`, `-1074 ≤ exp ≤ 971`,
and `2^52 ≤ mant` unless `exp = -1074`. -/
inductive F64 where
  | finite (neg : Bool) (mant : Nat) (exp : Int)
  | inf (neg : Bool)
  | nan
  deriving DecidableEq, Repr

/-- The integer nearest to `n / d`, ties going to the even neighbour. -/
def divRNE (n d : Nat) : Nat :=
  let q := n / d
  let r := n % d
  if d < 2 * r ∨ (2 * r = d ∧ q % 2 = 1) then q + 1 else q

/-- Number of binary digits of `n` (`bits.Len`), computed with `fuel` halving steps. -/
def bitLenAux : Nat → Nat → Nat
  | 0, _ => 0
  | fuel + 1, n => if n = 0 then 0 else bitLenAux fuel (n / 2) + 1

/-- Number of binary digits of `n`: `0` for `0`, otherwise `⌊log₂ n⌋ + 1`. -/
def bitLen (n : Nat) : Nat := bitLenAux n n

namespace F64

/-- The binary64 nearest to `(-1)^neg * n * 2^e` (ties to even); overflow gives an infinity,
results below the normal range are subnormal. -/
def round (neg : Bool) (n : Nat) (e : Int) : F64 :=
  if n = 0 then finite neg 0 (-1074)
  else
    -- `k` low bits are dropped (`k ≤ 0`: `-k` zero bits are appended)
    let k : Int := max ((bitLen n : Int) - 53) (-1074 - e)
    let m : Nat := if k ≤ 0 then n * 2 ^ (-k).toNat else divRNE n (2 ^ k.toNat)
    let m1 : Nat := if m = 2 ^ 53 then 2 ^ 52 else m
    let x : Int := if m = 2 ^ 53 then e + k + 1 else e + k
    if 971 < x then inf neg else finite neg m1 x

/-- Conversion of an unsigned integer, `float64(n)`. -/
def ofNat (n : Nat) : F64 := round false n 0

/-- Conversion of a signed integer, `float64(z)`. -/
def ofInt (z : Int) : F64 := round (decide (z < 0)) z.natAbs 0

/-- The product `x * y` of two `float64` values. -/
def mul : F64 → F64 → F64
  | finite s1 m1 e1, finite s2 m2 e2 => round (s1 != s2) (m1 * m2) (e1 + e2)
  | finite s1 m1 _, inf s2 => if m1 = 0 then nan else inf (s1 != s2)
  | inf s1, finite s2 m2 _ => if m2 = 0 then nan else inf (s1 != s2)
  | inf s1, inf s2 => inf (s1 != s2)
  | nan, _ => nan
  | _, nan => nan

/-- The exact value of a finite `float64`. -/
def toRat : F64 → Option ℚ
  | finite neg m e => some ((if neg then -1 else 1) * (m : ℚ) * (2 : ℚ) ^ e)
  | _ => none

/-- The constant `0.1` converted to `float64`: `0x1.999999999999ap-4`. -/
def c0_1 : F64 := finite false 7205759403792794 (-56)

/-- The constant `0.01` converted to `float64`: `0x1.47ae147ae147bp-7`. -/
def c0_01 : F64 := finite false 5764607523034235 (-59)

/-- The constant `0.001` converted to `float64`: `0x1.0624dd2f1a9fcp-10`. -/
def c0_001 : F64 := finite false 4611686018427388 (-62)

/-- Decimal digits of `n`, left-padded with zeros to `width` characters. -/
def padDigits (width n : Nat) : List Char :=
  let ds := Nat.toDigits 10 n
  List.replicate (width - ds.length) '0' ++ ds

/-- The text of `strconv.FormatFloat(x, 'f', prec, 64)` as `fmt` prints it for the verb `%.*f`:
the decimal expansion correctly rounded (ties to even) to `prec` fraction digits. -/
def formatFixed (prec : Nat) : F64 → String
  | nan => "NaN"
  | inf false => "+Inf"
  | inf true => "-Inf"
  | finite neg m e =>
    let scaled : Nat :=
      if 0 ≤ e then m * 2 ^ e.toNat * 10 ^ prec else divRNE (m * 10 ^ prec) (2 ^ (-e).toNat)
    let sign := if neg then "-" else ""
    let intPart := String.mk (Nat.toDigits 10 (scaled / 10 ^ prec))
    if prec = 0 then sign ++ intPart
    else sign ++ intPart ++ "." ++ String.mk (padDigits prec (scaled % 10 ^ prec))

end F64

/-- The named type `RoundedFloat` over `float64`. -/
abbrev RoundedFloat := F64

/-- The method `RoundedFloat.MarshalJSON`: `fmt.Sprintf("%.*f", 3, r)` with a nil error. -/
def RoundedFloat.MarshalJSON (r : RoundedFloat) : Except String String :=
  let s := F64.formatFixed 3 r
  .ok s

/-! ## JSON documents -/

/-- A JSON number literal. `integer neg n` is the literal `-?digits` with no fraction and no
exponent part (`integer true 0` is `-0`); `scientific neg digits fracLen exp` is a literal that
has a fraction part or an exponent part: `digits` are its integer and fraction digits read as
one numeral, `fracLen` the number of fraction digits, `exp` the exponent (0 when absent). -/
inductive JNumber where
  | integer (neg : Bool) (abs : Nat)
  | scientific (neg : Bool) (digits : Nat) (fracLen : Nat) (exp : Int)
  deriving DecidableEq, Repr

/-- The number a literal denotes. -/
def JNumber.value : JNumber → ℚ
  | .integer neg n => (if neg then -1 else 1) * (n : ℚ)
  | .scientific neg digits fracLen exp =>
    (if neg then -1 else 1) * (digits : ℚ) * (10 : ℚ) ^ (exp - (fracLen : Int))

/-- A JSON document; object keys are unquoted and kept in document order, duplicates included. -/
inductive JValue where
  | null
  | bool (b : Bool)
  | number (n : JNumber)
  | string (s : String)
  | array (items : List JValue)
  | object (members : List (String × JValue))

/-- A received payload as the `encoding/json` scanner sees it: rejected (`checkValid` fails),
or accepted with the document it spells. -/
inductive Payload where
  | malformed
  | document (v : JValue)

/-- The struct `Message`. -/
structure Message where
  topic : String
  message : Payload

/-! ## The register record -/

/-- The struct `Pc321State`; a nil pointer is `none`. `*uint32` and `*uint8` fields hold a
natural number, `*int32` fields an integer. -/
structure Pc321State where
  VoltageL1 : Option Nat := none
  CurrentL1 : Option Nat := none
  ActivePowerL1 : Option Int := none
  PowerFactorL1 : Option Nat := none
  EnergyConsumptionL1 : Option Nat := none
  VoltageL2 : Option Nat := none
  CurrentL2 : Option Nat := none
  ActivePowerL2 : Option Int := none
  PowerFactorL2 : Option Nat := none
  EnergyConsumptionL2 : Option Nat := none
  VoltageL3 : Option Nat := none
  CurrentL3 : Option Nat := none
  ActivePowerL3 : Option Int := none
  PowerFactorL3 : Option Nat := none
  EnergyConsumptionL3 : Option Nat := none
  TotalEnergyConsumption : Option Nat := none
  TotalCurrent : Option Nat := none
  TotalActivePower : Option Int := none
  Frequency : Option Nat := none
  Temperature : Option Nat := none
  DeviceStatus : Option Nat := none
  PhaseSeqDetection : Option Nat := none
  deriving DecidableEq, Repr

/-! ## `json.Unmarshal` into `Pc321State` -/

/-- The errors of `json.Unmarshal`: a `SyntaxError`, or an `UnmarshalTypeError`. The field
`Value` of the latter is the name of the kind of JSON value, followed, when an integer field
rejected a number, by a space and the number literal: `value` is the kind name and `literal`
the rejected literal, if there is one. `field` is the key of the struct field, empty for the
document itself. -/
inductive DecodeError where
  | syntaxError
  | typeError (value : String) (literal : Option JNumber) (field : String)
  deriving DecidableEq, Repr

/-- Storing a number literal in an unsigned field of `bits` bits:
`strconv.ParseUint(lit, 10, 64)` followed by the `OverflowUint` test. -/
def decodeUint (bits : Nat) : JNumber → Option Nat
  | .integer neg n =>
    if neg then none
    else if 2 ^ 64 ≤ n then none
    else if 2 ^ bits ≤ n then none
    else some n
  | .scientific _ _ _ _ => none

/-- Storing a number literal in a signed field of `bits` bits:
`strconv.ParseInt(lit, 10, 64)` followed by the `OverflowInt` test. -/
def decodeInt (bits : Nat) : JNumber → Option Int
  | .integer neg n =>
    if (if neg then 2 ^ 63 < n else 2 ^ 63 ≤ n) then none
    else
      let z : Int := if neg then -(n : Int) else (n : Int)
      if z < -(2 : Int) ^ (bits - 1) ∨ (2 : Int) ^ (bits - 1) ≤ z then none
      else some z
  | .scientific _ _ _ _ => none

/-- The name of a JSON value's kind, the word `UnmarshalTypeError.Value` starts with. -/
def JValue.kindName : JValue → String
  | .null => "null"
  | .bool _ => "bool"
  | .number _ => "number"
  | .string _ => "string"
  | .array _ => "array"
  | .object _ => "object"

/-- The literal of a number, which `UnmarshalTypeError.Value` carries after the kind name when
an integer field rejects the number; `none` for the other kinds of value. -/
def JValue.literal : JValue → Option JNumber
  | .number n => some n
  | _ => none

/-- Decoding one member value into a pointer field, given `dec` for number literals.
`null` sets the pointer to nil. Any other value first allocates the pointee if the pointer is
nil (`indirect`); a number that `dec` accepts is stored, everything else leaves the pointee
as it is and reports a type error. -/
def storeField {α : Type} (zero : α) (dec : JNumber → Option α) (cur : Option α) (v : JValue) :
    Option α × Bool :=
  match v with
  | .null => (none, false)
  | .number n =>
    match dec n with
    | some x => (some x, false)
    | none => (some (cur.getD zero), true)
  | _ => (some (cur.getD zero), true)

/-- The decoder state: the record being filled and `d.savedError`. -/
structure Decoder where
  data : Pc321State
  savedError : Option DecodeError
  deriving DecidableEq, Repr

/-- The call `d.saveError` with the `UnmarshalTypeError` of a member value that the field
`key` rejected: its `Value` is the kind name, with the literal appended when the value is a
number. Only the first error is kept. -/
def Decoder.saveError (d : Decoder) (failed : Bool) (v : JValue) (key : String) : Decoder :=
  if failed ∧ d.savedError = none then
    { d with savedError := some (.typeError v.kindName v.literal key) }
  else d

/-- Decoding one object member: the field whose `json` tag equals the key receives the value,
a key that is no tag is skipped. (The decoder's case-insensitive fallback can match nothing
else, the tags being digits only.) -/
def Decoder.member (d : Decoder) (key : String) (v : JValue) : Decoder :=
  match key with
  | "101" =>
    let r := storeField 0 (decodeUint 32) d.data.VoltageL1 v
    Decoder.saveError { d with data := { d.data with VoltageL1 := r.1 } } r.2 v key
  | "102" =>
    let r := storeField 0 (decodeUint 32) d.data.CurrentL1 v
    Decoder.saveError { d with data := { d.data with CurrentL1 := r.1 } } r.2 v key
  | "103" =>
    let r := storeField 0 (decodeInt 32) d.data.ActivePowerL1 v
    Decoder.saveError { d with data := { d.data with ActivePowerL1 := r.1 } } r.2 v key
  | "104" =>
    let r := storeField 0 (decodeUint 32) d.data.PowerFactorL1 v
    Decoder.saveError { d with data := { d.data with PowerFactorL1 := r.1 } } r.2 v key
  | "106" =>
    let r := storeField 0 (decodeUint 32) d.data.EnergyConsumptionL1 v
    Decoder.saveError { d with data := { d.data with EnergyConsumptionL1 := r.1 } } r.2 v key
  | "111" =>
    let r := storeField 0 (decodeUint 32) d.data.VoltageL2 v
    Decoder.saveError { d with data := { d.data with VoltageL2 := r.1 } } r.2 v key
  | "112" =>
    let r := storeField 0 (decodeUint 32) d.data.CurrentL2 v
    Decoder.saveError { d with data := { d.data with CurrentL2 := r.1 } } r.2 v key
  | "113" =>
    let r := storeField 0 (decodeInt 32) d.data.ActivePowerL2 v
    Decoder.saveError { d with data := { d.data with ActivePowerL2 := r.1 } } r.2 v key
  | "114" =>
    let r := storeField 0 (decodeUint 32) d.data.PowerFactorL2 v
    Decoder.saveError { d with data := { d.data with PowerFactorL2 := r.1 } } r.2 v key
  | "116" =>
    let r := storeField 0 (decodeUint 32) d.data.EnergyConsumptionL2 v
    Decoder.saveError { d with data := { d.data with EnergyConsumptionL2 := r.1 } } r.2 v key
  | "121" =>
    let r := storeField 0 (decodeUint 32) d.data.VoltageL3 v
    Decoder.saveError { d with data := { d.data with VoltageL3 := r.1 } } r.2 v key
  | "122" =>
    let r := storeField 0 (decodeUint 32) d.data.CurrentL3 v
    Decoder.saveError { d with data := { d.data with CurrentL3 := r.1 } } r.2 v key
  | "123" =>
    let r := storeField 0 (decodeInt 32) d.data.ActivePowerL3 v
    Decoder.saveError { d with data := { d.data with ActivePowerL3 := r.1 } } r.2 v key
  | "124" =>
    let r := storeField 0 (decodeUint 32) d.data.PowerFactorL3 v
    Decoder.saveError { d with data := { d.data with PowerFactorL3 := r.1 } } r.2 v key
  | "126" =>
    let r := storeField 0 (decodeUint 32) d.data.EnergyConsumptionL3 v
    Decoder.saveError { d with data := { d.data with EnergyConsumptionL3 := r.1 } } r.2 v key
  | "131" =>
    let r := storeField 0 (decodeUint 32) d.data.TotalEnergyConsumption v
    Decoder.saveError { d with data := { d.data with TotalEnergyConsumption := r.1 } } r.2 v key
  | "132" =>
    let r := storeField 0 (decodeUint 32) d.data.TotalCurrent v
    Decoder.saveError { d with data := { d.data with TotalCurrent := r.1 } } r.2 v key
  | "133" =>
    let r := storeField 0 (decodeInt 32) d.data.TotalActivePower v
    Decoder.saveError { d with data := { d.data with TotalActivePower := r.1 } } r.2 v key
  | "135" =>
    let r := storeField 0 (decodeUint 32) d.data.Frequency v
    Decoder.saveError { d with data := { d.data with Frequency := r.1 } } r.2 v key
  | "136" =>
    let r := storeField 0 (decodeUint 32) d.data.Temperature v
    Decoder.saveError { d with data := { d.data with Temperature := r.1 } } r.2 v key
  | "137" =>
    let r := storeField 0 (decodeUint 8) d.data.DeviceStatus v
    Decoder.saveError { d with data := { d.data with DeviceStatus := r.1 } } r.2 v key
  | "138" =>
    let r := storeField 0 (decodeUint 8) d.data.PhaseSeqDetection v
    Decoder.saveError { d with data := { d.data with PhaseSeqDetection := r.1 } } r.2 v key
  | _ => d

/-- Decoding a JSON object into a zero `Pc321State`: the members in document order. -/
def decodeObject (members : List (String × JValue)) : Decoder :=
  members.foldl (fun d kv => d.member kv.1 kv.2) ⟨{}, none⟩

/-- The call `json.Unmarshal(incoming.message, &data)` on a zero `data`. A malformed payload is
a syntax error. An object is decoded member by member in document order; a type error does
not stop the decoding, the first one is returned at the end. The document `null` leaves the
record untouched; any other non-object document is a type error whose `Value` is the kind
name alone. -/
def Unmarshal : Payload → Except DecodeError Pc321State
  | .malformed => .error .syntaxError
  | .document v =>
    let d : Decoder :=
      match v with
      | .object members => decodeObject members
      | .null => ⟨{}, none⟩
      | other => ⟨{}, some (.typeError other.kindName none "")⟩
    match d.savedError with
    | some e => .error e
    | none => .ok d.data

/-! ## The output metric map -/

/-- A Go `map[string]RoundedFloat`, as the list of its entries, keys distinct. -/
abbrev MetricMap := List (String × RoundedFloat)

/-- The assignment `payload[name] = x`. -/
def MetricMap.set : MetricMap → String → RoundedFloat → MetricMap
  | [], name, x => [(name, x)]
  | (k, y) :: rest, name, x =>
    if k = name then (k, x) :: rest else (k, y) :: MetricMap.set rest name x

/-- The lookup `payload[name]` with its presence flag. -/
def MetricMap.get : MetricMap → String → Option RoundedFloat
  | [], _ => none
  | (k, y) :: rest, name => if k = name then some y else MetricMap.get rest name

/-- The keys of the map. -/
def MetricMap.keys (m : MetricMap) : List String := m.map Prod.fst

/-- One statement `if data.X != nil { payload[name] = f(*data.X) }`. -/
def setIfPresent {α : Type} (payload : MetricMap) (name : String) (field : Option α)
    (f : α → RoundedFloat) : MetricMap :=
  match field with
  | some x => payload.set name (f x)
  | none => payload

/-- The body of the main loop from `payload := make(map[string]RoundedFloat)` to the last
`if`: the twenty conditional assignments in source order. -/
def rescale (data : Pc321State) : MetricMap :=
  let payload : MetricMap := []
  -- Range: 0-5000,              Unit: 0.1V
  let payload := setIfPresent payload "voltage_l1" data.VoltageL1 (fun x => F64.mul (F64.ofNat x) F64.c0_1)
  let payload := setIfPresent payload "voltage_l2" data.VoltageL2 (fun x => F64.mul (F64.ofNat x) F64.c0_1)
  let payload := setIfPresent payload "voltage_l3" data.VoltageL3 (fun x => F64.mul (F64.ofNat x) F64.c0_1)
  -- Range: 0-3000000,           Unit: mA
  let payload := setIfPresent payload "current_l1" data.CurrentL1 (fun x => F64.mul (F64.ofNat x) F64.c0_001)
  let payload := setIfPresent payload "current_l2" data.CurrentL2 (fun x => F64.mul (F64.ofNat x) F64.c0_001)
  let payload := setIfPresent payload "current_l3" data.CurrentL3 (fun x => F64.mul (F64.ofNat x) F64.c0_001)
  -- Range: -6600000-6600000,    Unit: W
  let payload := setIfPresent payload "power_l1" data.ActivePowerL1 (fun x => F64.ofInt x)
  let payload := setIfPresent payload "power_l2" data.ActivePowerL2 (fun x => F64.ofInt x)
  let payload := setIfPresent payload "power_l3" data.ActivePowerL3 (fun x => F64.ofInt x)
  -- Range: 0-100,               Unit: 0.01
  let payload := setIfPresent payload "power_factor_l1" data.PowerFactorL1 (fun x => F64.mul (F64.ofNat x) F64.c0_01)
  let payload := setIfPresent payload "power_factor_l2" data.PowerFactorL2 (fun x => F64.mul (F64.ofNat x) F64.c0_01)
  let payload := setIfPresent payload "power_factor_l3" data.PowerFactorL3 (fun x => F64.mul (F64.ofNat x) F64.c0_01)
  -- Range: 0-2000000000,        Unit: 0.01kW·h
  -- Looks like documentation is wrong, it should be 0.001kW·h
  let payload := setIfPresent payload "energy_l1" data.EnergyConsumptionL1 (fun x => F64.mul (F64.ofNat x) F64.c0_001)
  let payload := setIfPresent payload "energy_l2" data.EnergyConsumptionL2 (fun x => F64.mul (F64.ofNat x) F64.c0_001)
  let payload := setIfPresent payload "energy_l3" data.EnergyConsumptionL3 (fun x => F64.mul (F64.ofNat x) F64.c0_001)
  -- Range: 0-2000000000,        Unit: 0.01kW·h
  let payload := setIfPresent payload "energy" data.TotalEnergyConsumption (fun x => F64.mul (F64.ofNat x) F64.c0_001)
  -- Range: 0-9000000,           Unit: mA
  let payload := setIfPresent payload "current" data.TotalCurrent (fun x => F64.mul (F64.ofNat x) F64.c0_001)
  -- Range: -19800000-19800000,  Unit: W
  let payload := setIfPresent payload "power" data.TotalActivePower (fun x => F64.ofInt x)
  -- Range: 0-80,                Unit: Hz
  let payload := setIfPresent payload "frequency" data.Frequency (fun x => F64.ofNat x)
  -- Range: -100-800,            Unit: 0.1℃
  let payload := setIfPresent payload "temperature" data.Temperature (fun x => F64.mul (F64.ofNat x) F64.c0_1)
  payload

/-! ## `json.Marshal` of the metric map -/

/-- Byte-wise lexicographic order on strings, the order in which `json.Marshal` emits map
keys. -/
def strLt : List Char → List Char → Bool
  | [], [] => false
  | [], _ :: _ => true
  | _ :: _, [] => false
  | a :: as, b :: bs => decide (a.toNat < b.toNat) || (a == b && strLt as bs)

/-- Insertion of an entry into a list of entries sorted by key. -/
def insertEntry (e : String × RoundedFloat) : MetricMap → MetricMap
  | [] => [e]
  | f :: rest => if strLt f.1.data e.1.data then f :: insertEntry e rest else e :: f :: rest

/-- The entries of the map sorted by key. -/
def sortEntries : MetricMap → MetricMap
  | [] => []
  | e :: rest => insertEntry e (sortEntries rest)

/-- The tail of a list of characters after its leading decimal digits. -/
def dropDigits : List Char → List Char
  | [] => []
  | c :: rest => if c.isDigit then dropDigits rest else c :: rest

/-- The exponent part of a JSON number, or nothing. -/
def validExponent : List Char → Bool
  | [] => true
  | c :: rest =>
    (c == 'e' || c == 'E') &&
      match (match rest with | '+' :: r => r | '-' :: r => r | r => r) with
      | d :: r => d.isDigit && dropDigits r == []
      | [] => false

/-- The fraction and exponent parts of a JSON number, or nothing. -/
def validFraction : List Char → Bool
  | '.' :: d :: rest => d.isDigit && validExponent (dropDigits rest)
  | rest => validExponent rest

/-- The JSON number grammar. `json.Marshal` rejects the text a `MarshalJSON` method returns
unless it is a valid JSON value; of the texts `F64.formatFixed` produces those are the ones
spelling a number. -/
def validNumberText (cs : List Char) : Bool :=
  match (match cs with | '-' :: r => r | r => r) with
  | '0' :: rest => validFraction rest
  | d :: rest => d.isDigit && validFraction (dropDigits rest)
  | [] => false

/-- One member `"key":value` of the encoded object. The keys of this program are literals
over `a-z`, `0-9` and `_`, which the string encoder copies unchanged between quotes. -/
def marshalEntry (e : String × RoundedFloat) : Except String String :=
  match RoundedFloat.MarshalJSON e.2 with
  | .error err => .error err
  | .ok text =>
    if validNumberText text.data then .ok ("\"" ++ e.1 ++ "\":" ++ text)
    else .error "json: error calling MarshalJSON for type main.RoundedFloat"

/-- The members of the encoded object, in order; the first failure aborts. -/
def marshalEntries : MetricMap → Except String (List String)
  | [] => .ok []
  | e :: rest =>
    match marshalEntry e with
    | .error err => .error err
    | .ok s =>
      match marshalEntries rest with
      | .error err => .error err
      | .ok ss => .ok (s :: ss)

/-- The call `json.Marshal(payload)`: the members sorted by key, separated by commas, between
braces. -/
def Marshal (payload : MetricMap) : Except String String :=
  match marshalEntries (sortEntries payload) with
  | .error err => .error err
  | .ok members => .ok ("\x7b" ++ String.intercalate "," members ++ "\x7d")

/-! ## The process: transport calls and log records -/

/-- The level of a `slog` record. -/
inductive Level where
  | debug
  | info
  | error
  deriving DecidableEq, Repr

/-- The observable calls of the process: log records and calls on the MQTT client. -/
inductive Action where
  | log (level : Level) (msg : String)
  | connect (broker : String)
  | subscribe (topic : String) (qos : Nat)
  | publish (topic : String) (qos : Nat) (retained : Bool) (payload : String)
  deriving DecidableEq, Repr

/-- What the transport answers for one call: whether `token.WaitTimeout(5 * time.Second)`
returns true, and whether `token.Error()` is non-nil. -/
structure Token where
  completed : Bool
  failed : Bool
  deriving DecidableEq, Repr

/-- The two checks that follow a publish: each logs, neither stops the process. -/
def publishChecks (token : Token) : List Action :=
  (if !token.completed then [Action.log .error "Publish timeout"] else []) ++
  (if token.failed then [Action.log .error "Failed to publish message"] else [])

/-- One pass of the `for` loop on the message `incoming`; `token` is the transport's answer
to the publish call, if the pass reaches it. -/
def iteration (incoming : Message) (token : Token) : List Action :=
  Action.log .debug "Received message" ::
    match Unmarshal incoming.message with
    | .error _ => [Action.log .error "Failed to unmarshal message"]
    | .ok data =>
      let payload := rescale data
      match Marshal payload with
      | .error _ => [Action.log .error "Failed to marshal payload"]
      | .ok jsonPayload =>
        [Action.log .info "Publishing message",
         Action.publish "smacker/pc321" 0 false jsonPayload] ++ publishChecks token

/-- The `for` loop over the messages the channel delivers. No pass ends the loop. -/
def mainLoop : List (Message × Token) → List Action
  | [] => []
  | (incoming, token) :: rest => iteration incoming token ++ mainLoop rest

/-- The variable `deviceJson`. -/
def deviceJson : String :=
  "\x7b\"identifiers\": [\"smacker_pc321\"],\"manufacturer\": \"Owon\",\"model\": \"3-Phase clamp power meter\",\"name\": \"Energy Meter\"\x7d"

/-- The function `publishConfigMetric`. -/
def publishConfigMetric (metric payload : String) (token : Token) : List Action :=
  Action.publish ("homeassistant/sensor/pc321/" ++ metric ++ "/config") 0 true
      ("\x7b\"device\": " ++ deviceJson ++ ", " ++ payload ++ "\x7d") ::
    publishChecks token

/-- The format `energyPayload` applied to its three `%s` arguments. -/
def energyPayload (a b c : String) : String :=
  "\"device_class\": \"energy\",\"enabled_by_default\": true,\"object_id\": \"pc321_energy" ++ a ++
  "\",\"state_class\": \"total_increasing\",\"state_topic\": \"smacker/pc321\",\"unique_id\": \"pc321_energy" ++ b ++
  "\",\"unit_of_measurement\": \"kWh\",\"value_template\": \"\x7b\x7b value_json.energy" ++ c ++ " \x7d\x7d\""

/-- The format `powerPayload` applied to its three `%s` arguments. -/
def powerPayload (a b c : String) : String :=
  "\"device_class\": \"power\",\"enabled_by_default\": true,\"entity_category\": \"diagnostic\",\"object_id\": \"pc321_power" ++ a ++
  "\",\"state_class\": \"measurement\",\"state_topic\": \"smacker/pc321\",\"unique_id\": \"pc321_power" ++ b ++
  "\",\"unit_of_measurement\": \"W\",\"value_template\": \"\x7b\x7b value_json.power" ++ c ++ " \x7d\x7d\""

/-- The function `publishConfig`; `tokens i` is the transport's answer to its `i`-th publish. -/
def publishConfig (tokens : Nat → Token) : List Action :=
  publishConfigMetric "energy" (energyPayload "" "" "") (tokens 0) ++
  publishConfigMetric "energy_l1" (energyPayload "_l1" "_l1" "_l1") (tokens 1) ++
  publishConfigMetric "energy_l2" (energyPayload "_l2" "_l2" "_l2") (tokens 2) ++
  publishConfigMetric "energy_l3" (energyPayload "_l3" "_l3" "_l3") (tokens 3) ++
  publishConfigMetric "power" (powerPayload "" "" "") (tokens 4) ++
  publishConfigMetric "power_l1" (powerPayload "_l1" "_l1" "_l1") (tokens 5) ++
  publishConfigMetric "power_l2" (powerPayload "_l2" "_l2" "_l2") (tokens 6) ++
  publishConfigMetric "power_l3" (powerPayload "_l3" "_l3" "_l3") (tokens 7)

/-- The command line flags `main` reads. -/
structure Flags where
  topic : String := ""
  broker : String := ""
  password : String := ""
  user : String := ""
  id : String := "testgoid"
  cleansess : Bool := false
  store : String := ":memory:"
  deriving DecidableEq, Repr

/-- The transport's side of one execution: its answers to the connect, the discovery
publishes and the subscribe, and the messages it delivers, each with the answer to the
publish that message may cause. -/
structure Env where
  connect : Token
  config : Nat → Token
  subscribe : Token
  inbox : List (Message × Token)

/-- How an execution ends: the process exits with a status, or it is blocked on the channel
after the last delivered message. -/
inductive Outcome where
  | exit (status : Nat)
  | waiting
  deriving DecidableEq, Repr

/-- The function `main`, without the signal-handling goroutine: the calls it makes in order,
and how it ends. Returning from `main` ends the process with status 0, `os.Exit(1)` with
status 1. -/
def main (flags : Flags) (env : Env) : List Action × Outcome :=
  if flags.topic = "" then
    ([Action.log .error "Invalid setting for -topic, must not be empty"], .exit 0)
  else
    let t1 := [Action.connect flags.broker]
    if !env.connect.completed then
      (t1 ++ [Action.log .error "Connect timeout"], .exit 1)
    else if env.connect.failed then
      (t1 ++ [Action.log .error "Connect failed"], .exit 1)
    else
      let t2 := t1 ++ publishConfig env.config ++ [Action.subscribe flags.topic 0]
      if !env.subscribe.completed then
        (t2 ++ [Action.log .error "Subscribe timeout"], .exit 1)
      else if env.subscribe.failed then
        (t2 ++ [Action.log .error "Subscription failed"], .exit 1)
      else
        (t2 ++ mainLoop env.inbox, .waiting)

/-! ## The register table of the specification -/

/-- The register groups of the scale table. -/
inductive Group where
  | voltage
  | current
  | activePower
  | powerFactor
  | energy
  | frequency
  | temperature
  deriving DecidableEq, Repr

/-- A raw register value multiplied by the scale factor of its group, in `float64`:
`0.1` for voltage and temperature, `0.001` for current and energy, `0.01` for power factor;
for active power and frequency the factor is 1 and the value is the converted integer. -/
def Group.scaled : Group → Int → RoundedFloat
  | .voltage, v => F64.mul (F64.ofInt v) F64.c0_1
  | .current, v => F64.mul (F64.ofInt v) F64.c0_001
  | .activePower, v => F64.ofInt v
  | .powerFactor, v => F64.mul (F64.ofInt v) F64.c0_01
  | .energy, v => F64.mul (F64.ofInt v) F64.c0_001
  | .frequency, v => F64.ofInt v
  | .temperature, v => F64.mul (F64.ofInt v) F64.c0_1

/-- The scale factor of a group, from the scale table. -/
def Group.factor : Group → ℚ
  | .voltage => 1 / 10
  | .current => 1 / 1000
  | .activePower => 1
  | .powerFactor => 1 / 100
  | .energy => 1 / 1000
  | .frequency => 1
  | .temperature => 1 / 10

/-- The twenty mapped registers: register ID, canonical metric name, group. -/
def scaleTable : List (Nat × String × Group) :=
  [(101, "voltage_l1", .voltage), (111, "voltage_l2", .voltage), (121, "voltage_l3", .voltage),
   (102, "current_l1", .current), (112, "current_l2", .current), (122, "current_l3", .current),
   (132, "current", .current),
   (103, "power_l1", .activePower), (113, "power_l2", .activePower),
   (123, "power_l3", .activePower), (133, "power", .activePower),
   (104, "power_factor_l1", .powerFactor), (114, "power_factor_l2", .powerFactor),
   (124, "power_factor_l3", .powerFactor),
   (106, "energy_l1", .energy), (116, "energy_l2", .energy), (126, "energy_l3", .energy),
   (131, "energy", .energy),
   (135, "frequency", .frequency),
   (136, "temperature", .temperature)]

/-- The value of the register with the given ID in a reading, by the `json` tags of
`Pc321State`; `none` when the register is absent or the ID is no tag. -/
def Pc321State.register (data : Pc321State) : Nat → Option Int
  | 101 => data.VoltageL1.map Int.ofNat
  | 102 => data.CurrentL1.map Int.ofNat
  | 103 => data.ActivePowerL1
  | 104 => data.PowerFactorL1.map Int.ofNat
  | 106 => data.EnergyConsumptionL1.map Int.ofNat
  | 111 => data.VoltageL2.map Int.ofNat
  | 112 => data.CurrentL2.map Int.ofNat
  | 113 => data.ActivePowerL2
  | 114 => data.PowerFactorL2.map Int.ofNat
  | 116 => data.EnergyConsumptionL2.map Int.ofNat
  | 121 => data.VoltageL3.map Int.ofNat
  | 122 => data.CurrentL3.map Int.ofNat
  | 123 => data.ActivePowerL3
  | 124 => data.PowerFactorL3.map Int.ofNat
  | 126 => data.EnergyConsumptionL3.map Int.ofNat
  | 131 => data.TotalEnergyConsumption.map Int.ofNat
  | 132 => data.TotalCurrent.map Int.ofNat
  | 133 => data.TotalActivePower
  | 135 => data.Frequency.map Int.ofNat
  | 136 => data.Temperature.map Int.ofNat
  | 137 => data.DeviceStatus.map Int.ofNat
  | 138 => data.PhaseSeqDetection.map Int.ofNat
  | _ => none

/-- The finite value `x` is the `float64` closest to the rational `q`: a normal number whose
mantissa is no power of two (so that its neighbours lie one unit in the last place away on
both sides) at a distance from `q` of less than half a unit in the last place. -/
def F64.Nearest (x : F64) (q : ℚ) : Prop :=
  ∃ neg m e, x = .finite neg m e ∧ 2 ^ 52 < m ∧ m < 2 ^ 53 ∧ -1074 ≤ e ∧ e ≤ 971 ∧
    |(if neg then -1 else 1) * (m : ℚ) * (2 : ℚ) ^ e - q| < (2 : ℚ) ^ (e - 1)

/-- The declared integer types of the fields of `Pc321State`. -/
inductive Width where
  | uint32
  | int32
  | uint8
  deriving DecidableEq, Repr

/-- The least value of an integer type. -/
def Width.lo : Width → Int
  | .uint32 => 0
  | .int32 => -2 ^ 31
  | .uint8 => 0

/-- The greatest value of an integer type. -/
def Width.hi : Width → Int
  | .uint32 => 2 ^ 32 - 1
  | .int32 => 2 ^ 31 - 1
  | .uint8 => 2 ^ 8 - 1

/-- The recognized register keys, the `json` tags of `Pc321State`, with the declared type of
the field each one names. -/
def fieldWidth : String → Option Width
  | "101" => some .uint32
  | "102" => some .uint32
  | "103" => some .int32
  | "104" => some .uint32
  | "106" => some .uint32
  | "111" => some .uint32
  | "112" => some .uint32
  | "113" => some .int32
  | "114" => some .uint32
  | "116" => some .uint32
  | "121" => some .uint32
  | "122" => some .uint32
  | "123" => some .int32
  | "124" => some .uint32
  | "126" => some .uint32
  | "131" => some .uint32
  | "132" => some .uint32
  | "133" => some .int32
  | "135" => some .uint32
  | "136" => some .uint32
  | "137" => some .uint8
  | "138" => some .uint8
  | _ => none

/-- The twenty canonical metric names. -/
def canonicalNames : List String :=
  ["voltage_l1", "voltage_l2", "voltage_l3", "current_l1", "current_l2", "current_l3",
   "power_l1", "power_l2", "power_l3", "power_factor_l1", "power_factor_l2", "power_factor_l3",
   "energy_l1", "energy_l2", "energy_l3", "energy", "current", "power", "frequency",
   "temperature"]

/-- The shape of a fixed-point decimal with three fraction digits: an optional minus sign, one
or more digits, a point, exactly three digits, and nothing else. -/
def IsFixed3 (s : String) : Prop :=
  ∃ sign ip fp : List Char, s.data = sign ++ ip ++ '.' :: fp ∧ (sign = [] ∨ sign = ['-']) ∧
    ip ≠ [] ∧ (∀ c ∈ ip, c.isDigit = true) ∧ fp.length = 3 ∧ ∀ c ∈ fp, c.isDigit = true

/-! ## Observations used in the statements -/

/-- The arguments of a publish call: topic, QoS, retained flag and payload; `none` for any
other action. -/
def Action.asPublish : Action → Option (String × Nat × Bool × String)
  | .publish topic qos retained payload => some (topic, qos, retained, payload)
  | _ => none

/-- Whether `text` begins with `pre`. -/
def startsWith : List Char → List Char → Bool
  | [], _ => true
  | _ :: _, [] => false
  | p :: ps, c :: cs => p == c && startsWith ps cs

/-- Whether `part` occurs in `text` as a contiguous run of characters. -/
def containsText (part : List Char) : List Char → Bool
  | [] => startsWith part []
  | c :: cs => startsWith part (c :: cs) || containsText part cs

/-- The eight metrics for which a discovery descriptor is published. -/
def discoveryMetrics : List String :=
  ["energy", "energy_l1", "energy_l2", "energy_l3", "power", "power_l1", "power_l2", "power_l3"]

/-- The discovery topic of a metric. -/
def configTopic (metric : String) : String :=
  "homeassistant/sensor/pc321/" ++ metric ++ "/config"

/-- A descriptor payload is consistent with the data path for the metric `m`: its state topic
is `smacker/pc321`, its value template reads `value_json.m`, and its unique and object IDs are
`pc321_m`. -/
def descriptorConsistent (m payload : String) : Bool :=
  containsText "\"state_topic\": \"smacker/pc321\"".data payload.data &&
  containsText ("\"value_template\": \"\x7b\x7b value_json." ++ m ++ " \x7d\x7d\"").data payload.data &&
  containsText ("\"unique_id\": \"pc321_" ++ m ++ "\"").data payload.data &&
  containsText ("\"object_id\": \"pc321_" ++ m ++ "\"").data payload.data

/-- The field of the record named by a recognized key (the `json` tags of `Pc321State`), as an
integer; `none` when the pointer is nil or the key is no tag. -/
def Pc321State.field (data : Pc321State) : String → Option Int
  | "101" => data.VoltageL1.map Int.ofNat
  | "102" => data.CurrentL1.map Int.ofNat
  | "103" => data.ActivePowerL1
  | "104" => data.PowerFactorL1.map Int.ofNat
  | "106" => data.EnergyConsumptionL1.map Int.ofNat
  | "111" => data.VoltageL2.map Int.ofNat
  | "112" => data.CurrentL2.map Int.ofNat
  | "113" => data.ActivePowerL2
  | "114" => data.PowerFactorL2.map Int.ofNat
  | "116" => data.EnergyConsumptionL2.map Int.ofNat
  | "121" => data.VoltageL3.map Int.ofNat
  | "122" => data.CurrentL3.map Int.ofNat
  | "123" => data.ActivePowerL3
  | "124" => data.PowerFactorL3.map Int.ofNat
  | "126" => data.EnergyConsumptionL3.map Int.ofNat
  | "131" => data.TotalEnergyConsumption.map Int.ofNat
  | "132" => data.TotalCurrent.map Int.ofNat
  | "133" => data.TotalActivePower
  | "135" => data.Frequency.map Int.ofNat
  | "136" => data.Temperature.map Int.ofNat
  | "137" => data.DeviceStatus.map Int.ofNat
  | "138" => data.PhaseSeqDetection.map Int.ofNat
  | _ => none

/-- The integer a number literal stores in a field of the given type, if the decoder accepts
it: `decodeUint` for the unsigned types, `decodeInt` for `int32`. -/
def Width.decode : Width → JNumber → Option Int
  | .uint32, n => (decodeUint 32 n).map Int.ofNat
  | .int32, n => decodeInt 32 n
  | .uint8, n => (decodeUint 8 n).map Int.ofNat

/-- Whether a member value is stored in a field of the given type without a type error:
`null`, or a number literal the decoder accepts. -/
def Width.accepts (w : Width) : JValue → Bool
  | .null => true
  | .number n => (w.decode n).isSome
  | _ => false

/-- What a field of the given type holds after an accepted member value: nothing after
`null`, the decoded integer after a number. -/
def Width.stored (w : Width) : JValue → Option Int
  | .number n => w.decode n
  | _ => none

/-- The value of the last member of the object with the given key, if the key occurs. -/
def lastValue (members : List (String × JValue)) (key : String) : Option JValue :=
  members.foldl (fun acc kv => if kv.1 = key then some kv.2 else acc) none

/-- The number a list of decimal digit characters spells. -/
def digitsValue (cs : List Char) : Nat :=
  cs.foldl (fun acc c => acc * 10 + (c.toNat - 48)) 0

/-- The scale factor of a group in thousandths: the number of thousandths of the output unit
in one raw unit. -/
def Group.milli : Group → Nat
  | .voltage => 100
  | .current => 1
  | .activePower => 1000
  | .powerFactor => 10
  | .energy => 1
  | .frequency => 1000
  | .temperature => 100

/-- The decimal rendering with exactly three fraction digits of `n` thousandths, with a minus
sign when `neg` is set. -/
def fixed3Text (neg : Bool) (n : Nat) : String :=
  (if neg then "-" else "") ++ String.mk (Nat.toDigits 10 (n / 1000)) ++ "." ++
    String.mk (F64.padDigits 3 (n % 1000))

/-! ## Lemmas on binary64 -/

theorem bitLenAux_zero (fuel : Nat) : bitLenAux fuel 0 = 0 := by
  cases fuel <;> simp [bitLenAux]

theorem bitLenAux_spec (fuel : Nat) : ∀ n, n ≤ fuel →
    n < 2 ^ bitLenAux fuel n ∧ (n ≠ 0 → 2 ^ (bitLenAux fuel n - 1) ≤ n) := by
  induction fuel with
  | zero =>
    intro n hn
    have : n = 0 := by omega
    subst this
    simp [bitLenAux]
  | succ fuel ih =>
    intro n hn
    by_cases h0 : n = 0
    · subst h0
      simp [bitLenAux]
    · have hle : n / 2 ≤ fuel := by omega
      obtain ⟨h1, h2⟩ := ih (n / 2) hle
      simp only [bitLenAux, h0, if_false, Nat.add_sub_cancel]
      refine ⟨?_, fun _ => ?_⟩
      · rw [pow_succ]
        omega
      · by_cases hz : n / 2 = 0
        · rw [hz, bitLenAux_zero]
          simp
          omega
        · have h3 := h2 hz
          have hb : bitLenAux fuel (n / 2) ≠ 0 := by
            intro hb
            rw [hb] at h1
            simp at h1
            exact hz h1
          obtain ⟨b, hb'⟩ := Nat.exists_eq_succ_of_ne_zero hb
          rw [hb'] at h3 ⊢
          simp only [Nat.succ_sub_one] at h3
          rw [Nat.succ_eq_add_one, pow_succ]
          omega

theorem lt_two_pow_bitLen (n : Nat) : n < 2 ^ bitLen n :=
  (bitLenAux_spec n n (le_refl n)).1

theorem two_pow_bitLen_le (n : Nat) (h : n ≠ 0) : 2 ^ (bitLen n - 1) ≤ n :=
  (bitLenAux_spec n n (le_refl n)).2 h

theorem bitLen_le_of_lt (n k : Nat) (h : n < 2 ^ k) : bitLen n ≤ k := by
  by_cases h0 : n = 0
  · subst h0
    simp [bitLen, bitLenAux_zero]
  · have h1 := two_pow_bitLen_le n h0
    have h2 : 2 ^ (bitLen n - 1) < 2 ^ k := lt_of_le_of_lt h1 h
    have h3 := (Nat.pow_lt_pow_iff_right (by norm_num : 1 < 2)).1 h2
    omega

theorem bitLen_pos (n : Nat) (h : n ≠ 0) : 0 < bitLen n := by
  by_contra hc
  have h0 : bitLen n = 0 := by omega
  have := lt_two_pow_bitLen n
  rw [h0] at this
  omega

theorem bitLen_mul_le (a b : Nat) : bitLen (a * b) ≤ bitLen a + bitLen b := by
  apply bitLen_le_of_lt
  rw [pow_add]
  exact Nat.mul_lt_mul'' (lt_two_pow_bitLen a) (lt_two_pow_bitLen b)

theorem divRNE_le (n d : Nat) : divRNE n d ≤ n / d + 1 := by
  unfold divRNE
  simp only
  split <;> omega

theorem divRNE_ge (n d : Nat) : n / d ≤ divRNE n d := by
  unfold divRNE
  simp only
  split <;> omega

theorem F64.round_finite (neg : Bool) (n : Nat) (e : Int) (h : e + bitLen n ≤ 1023) :
    ∃ m x, F64.round neg n e = .finite neg m x ∧ m < 2 ^ 53 ∧ x ≤ 971 := by
  by_cases h0 : n = 0
  · exact ⟨0, -1074, by simp [F64.round, h0], by norm_num, by norm_num⟩
  · have hL := lt_two_pow_bitLen n
    obtain ⟨k, hk⟩ : ∃ k : Int, k = max ((bitLen n : Int) - 53) (-1074 - e) := ⟨_, rfl⟩
    have hk1 : (bitLen n : Int) - 53 ≤ k := hk ▸ le_max_left _ _
    have hk3 : e + k ≤ 970 := by
      rcases max_choice ((bitLen n : Int) - 53) (-1074 - e) with hc | hc <;> rw [hk, hc] <;> omega
    obtain ⟨m, hm⟩ : ∃ m : Nat,
        m = if k ≤ 0 then n * 2 ^ (-k).toNat else divRNE n (2 ^ k.toNat) := ⟨_, rfl⟩
    have hmle : m ≤ 2 ^ 53 := by
      by_cases hk0 : k ≤ 0
      · rw [hm, if_pos hk0]
        have ht : bitLen n + (-k).toNat ≤ 53 := by omega
        calc n * 2 ^ (-k).toNat ≤ 2 ^ bitLen n * 2 ^ (-k).toNat :=
              Nat.mul_le_mul_right _ (le_of_lt hL)
          _ = 2 ^ (bitLen n + (-k).toNat) := (pow_add 2 _ _).symm
          _ ≤ 2 ^ 53 := Nat.pow_le_pow_right (by norm_num) ht
      · rw [hm, if_neg hk0]
        have ht : bitLen n ≤ 53 + k.toNat := by omega
        have h1 : n < 2 ^ 53 * 2 ^ k.toNat := by
          calc n < 2 ^ bitLen n := hL
            _ ≤ 2 ^ (53 + k.toNat) := Nat.pow_le_pow_right (by norm_num) ht
            _ = 2 ^ 53 * 2 ^ k.toNat := pow_add 2 _ _
        have h2 : n / 2 ^ k.toNat < 2 ^ 53 := (Nat.div_lt_iff_lt_mul (by positivity)).2 h1
        have h3 := divRNE_le n (2 ^ k.toNat)
        omega
    by_cases hmx : m = 2 ^ 53
    · refine ⟨2 ^ 52, e + k + 1, ?_, by norm_num, by omega⟩
      simp only [F64.round, h0, if_false, ← hk, ← hm, hmx, if_true]
      rw [if_neg (by omega)]
    · refine ⟨m, e + k, ?_, by omega, by omega⟩
      simp only [F64.round, h0, if_false, ← hk, ← hm, hmx]
      rw [if_neg (by omega)]

theorem F64.round_int_exact (neg : Bool) (n : Nat) (h : n < 2 ^ 53) :
    (F64.round neg n 0).toRat = some ((if neg then -1 else 1) * (n : ℚ)) := by
  by_cases h0 : n = 0
  · simp [F64.round, h0, F64.toRat]
  · have hL := bitLen_le_of_lt n 53 h
    have hL0 := bitLen_pos n h0
    have hlt := lt_two_pow_bitLen n
    have hk : max ((bitLen n : Int) - 53) (-1074 - 0) = (bitLen n : Int) - 53 := by
      apply max_eq_left
      omega
    have hk0 : (bitLen n : Int) - 53 ≤ 0 := by omega
    have ht : (-((bitLen n : Int) - 53)).toNat = 53 - bitLen n := by omega
    have hm : n * 2 ^ (53 - bitLen n) < 2 ^ 53 := by
      calc n * 2 ^ (53 - bitLen n) < 2 ^ bitLen n * 2 ^ (53 - bitLen n) :=
            Nat.mul_lt_mul_of_pos_right hlt (by positivity)
        _ = 2 ^ (bitLen n + (53 - bitLen n)) := (pow_add 2 _ _).symm
        _ = 2 ^ 53 := by congr 1; omega
    have hne : n * 2 ^ (53 - bitLen n) ≠ 2 ^ 53 := by omega
    simp only [F64.round, h0, if_false, hk, hk0, if_true, ht, hne, zero_add]
    rw [if_neg (by omega)]
    simp only [F64.toRat]
    congr 1
    have hz : ((bitLen n : Int) - 53) = -((53 - bitLen n : Nat) : Int) := by omega
    rw [hz, zpow_neg, zpow_natCast]
    push_cast
    field_simp

theorem divRNE_error (n d : Nat) (hd : 0 < d) :
    2 * |((divRNE n d * d : Nat) : Int) - (n : Int)| ≤ (d : Int) := by
  have hdm := Nat.div_add_mod n d
  have hml := Nat.mod_lt n hd
  unfold divRNE
  simp only
  split
  · rename_i hc
    have hq : (n / d + 1) * d = d * (n / d) + d := by ring
    rw [hq, abs_of_nonneg (by omega)]
    omega
  · rename_i hc
    have hq : n / d * d = d * (n / d) := by ring
    rw [hq, abs_of_nonpos (by omega)]
    omega

theorem divRNE_error_rat (n d : Nat) (hd : 0 < d) :
    |(divRNE n d : ℚ) * (d : ℚ) - (n : ℚ)| ≤ (d : ℚ) / 2 := by
  have h := divRNE_error n d hd
  have h2 : ((2 * |((divRNE n d * d : Nat) : Int) - (n : Int)| : Int) : ℚ) ≤ ((d : Int) : ℚ) := by
    exact_mod_cast h
  push_cast at h2
  linarith

/-- The value of `F64.round neg n e` differs from `n * 2^e` by at most `2^-53` of it, when the
result is in the normal range. -/
theorem F64.round_error (neg : Bool) (n : Nat) (e : Int) (h0 : n ≠ 0)
    (hlo : -1021 ≤ e + bitLen n) (hhi : e + bitLen n ≤ 1023) :
    ∃ m x, F64.round neg n e = .finite neg m x ∧
      |(m : ℚ) * (2 : ℚ) ^ x - (n : ℚ) * (2 : ℚ) ^ e| ≤ (n : ℚ) * (2 : ℚ) ^ e * (2 : ℚ) ^ (-53 : Int) := by
  have hL := lt_two_pow_bitLen n
  have hL1 := two_pow_bitLen_le n h0
  have hLp := bitLen_pos n h0
  have hk : max ((bitLen n : Int) - 53) (-1074 - e) = (bitLen n : Int) - 53 :=
    max_eq_left (by omega)
  have h2pos : (0 : ℚ) < (2 : ℚ) ^ e := by positivity
  have hrhs : (0 : ℚ) ≤ (n : ℚ) * (2 : ℚ) ^ e * (2 : ℚ) ^ (-53 : Int) := by positivity
  by_cases hk0 : (bitLen n : Int) - 53 ≤ 0
  · have ht : (-((bitLen n : Int) - 53)).toNat = 53 - bitLen n := by omega
    have hm : n * 2 ^ (53 - bitLen n) < 2 ^ 53 := by
      calc n * 2 ^ (53 - bitLen n) < 2 ^ bitLen n * 2 ^ (53 - bitLen n) :=
            Nat.mul_lt_mul_of_pos_right hL (by positivity)
        _ = 2 ^ (bitLen n + (53 - bitLen n)) := (pow_add 2 _ _).symm
        _ = 2 ^ 53 := by congr 1; omega
    have hne : n * 2 ^ (53 - bitLen n) ≠ 2 ^ 53 := by omega
    refine ⟨n * 2 ^ (53 - bitLen n), e + ((bitLen n : Int) - 53), ?_, ?_⟩
    · simp only [F64.round, h0, if_false, hk, hk0, if_true, ht, hne]
      rw [if_neg (by omega)]
    · have hz : e + ((bitLen n : Int) - 53) = e - ((53 - bitLen n : Nat) : Int) := by omega
      have : ((n * 2 ^ (53 - bitLen n) : Nat) : ℚ) * (2 : ℚ) ^ (e + ((bitLen n : Int) - 53)) =
          (n : ℚ) * (2 : ℚ) ^ e := by
        rw [hz, zpow_sub₀ (by norm_num), zpow_natCast]
        push_cast
        field_simp
        ring
      rw [this, sub_self, abs_zero]
      exact hrhs
  · have hkk : ((bitLen n : Int) - 53).toNat = bitLen n - 53 := by omega
    have hd : 0 < 2 ^ (bitLen n - 53) := by positivity
    have herr := divRNE_error_rat n (2 ^ (bitLen n - 53)) hd
    obtain ⟨m0, hm0⟩ : ∃ m0, m0 = divRNE n (2 ^ (bitLen n - 53)) := ⟨_, rfl⟩
    rw [← hm0] at herr
    -- the value of the result is `m0 * 2^(e + k)` in both cases
    have hval : ∃ m x, F64.round neg n e = .finite neg m x ∧
        (m : ℚ) * (2 : ℚ) ^ x = (m0 : ℚ) * (2 : ℚ) ^ (e + ((bitLen n : Int) - 53)) := by
      have hmle : m0 ≤ 2 ^ 53 := by
        have h1 : n < 2 ^ 53 * 2 ^ (bitLen n - 53) := by
          calc n < 2 ^ bitLen n := hL
            _ = 2 ^ (53 + (bitLen n - 53)) := by congr 1; omega
            _ = 2 ^ 53 * 2 ^ (bitLen n - 53) := pow_add 2 _ _
        have h2 : n / 2 ^ (bitLen n - 53) < 2 ^ 53 := (Nat.div_lt_iff_lt_mul hd).2 h1
        have h3 := divRNE_le n (2 ^ (bitLen n - 53))
        omega
      by_cases hmx : m0 = 2 ^ 53
      · refine ⟨2 ^ 52, e + ((bitLen n : Int) - 53) + 1, ?_, ?_⟩
        · simp only [F64.round, h0, if_false, hk, hk0, hkk, ← hm0, hmx, if_true]
          rw [if_neg (by omega)]
        · rw [hmx, zpow_add_one₀ (by norm_num)]
          push_cast
          ring
      · refine ⟨m0, e + ((bitLen n : Int) - 53), ?_, rfl⟩
        simp only [F64.round, h0, if_false, hk, hk0, hkk, ← hm0, hmx]
        rw [if_neg (by omega)]
    obtain ⟨m, x, hr, hv⟩ := hval
    refine ⟨m, x, hr, ?_⟩
    rw [hv]
    have hz : e + ((bitLen n : Int) - 53) = e + ((bitLen n - 53 : Nat) : Int) := by omega
    rw [hz, zpow_add₀ (by norm_num), zpow_natCast]
    have hfac : (m0 : ℚ) * ((2 : ℚ) ^ e * (2 : ℚ) ^ (bitLen n - 53)) - (n : ℚ) * (2 : ℚ) ^ e =
        ((m0 : ℚ) * (2 : ℚ) ^ (bitLen n - 53) - (n : ℚ)) * (2 : ℚ) ^ e := by ring
    rw [hfac, abs_mul, abs_of_pos h2pos]
    push_cast at herr
    have hn : (2 : ℚ) ^ (bitLen n - 53) / 2 ≤ (n : ℚ) * (2 : ℚ) ^ (-53 : Int) := by
      have h1 : ((2 ^ (bitLen n - 1) : Nat) : ℚ) ≤ (n : ℚ) := by exact_mod_cast hL1
      have h2 : (2 : ℚ) ^ (bitLen n - 1) = (2 : ℚ) ^ (bitLen n - 53) / 2 * (2 : ℚ) ^ (53 : Nat) := by
        have : bitLen n - 1 = (bitLen n - 53) + 52 := by omega
        rw [this, pow_add]
        ring
      push_cast at h1
      rw [h2] at h1
      rw [zpow_neg]
      rw [show ((2 : ℚ) ^ (53 : Int)) = (2 : ℚ) ^ (53 : Nat) from by norm_cast]
      rw [← div_eq_mul_inv, le_div_iff₀ (by positivity)]
      exact h1
    calc |(m0 : ℚ) * (2 : ℚ) ^ (bitLen n - 53) - (n : ℚ)| * (2 : ℚ) ^ e
        ≤ ((2 : ℚ) ^ (bitLen n - 53) / 2) * (2 : ℚ) ^ e :=
          mul_le_mul_of_nonneg_right herr (le_of_lt h2pos)
      _ ≤ ((n : ℚ) * (2 : ℚ) ^ (-53 : Int)) * (2 : ℚ) ^ e :=
          mul_le_mul_of_nonneg_right hn (le_of_lt h2pos)
      _ = (n : ℚ) * (2 : ℚ) ^ e * (2 : ℚ) ^ (-53 : Int) := by ring

theorem F64.round_int_eq (neg : Bool) (n : Nat) (h0 : n ≠ 0) (h : n < 2 ^ 53) :
    F64.round neg n 0 = .finite neg (n * 2 ^ (53 - bitLen n)) ((bitLen n : Int) - 53) := by
  have hL := bitLen_le_of_lt n 53 h
  have hL0 := bitLen_pos n h0
  have hlt := lt_two_pow_bitLen n
  have hk : max ((bitLen n : Int) - 53) (-1074 - 0) = (bitLen n : Int) - 53 :=
    max_eq_left (by omega)
  have hk0 : (bitLen n : Int) - 53 ≤ 0 := by omega
  have ht : (-((bitLen n : Int) - 53)).toNat = 53 - bitLen n := by omega
  have hm : n * 2 ^ (53 - bitLen n) < 2 ^ 53 := by
    calc n * 2 ^ (53 - bitLen n) < 2 ^ bitLen n * 2 ^ (53 - bitLen n) :=
          Nat.mul_lt_mul_of_pos_right hlt (by positivity)
      _ = 2 ^ (bitLen n + (53 - bitLen n)) := (pow_add 2 _ _).symm
      _ = 2 ^ 53 := by congr 1; omega
  have hne : n * 2 ^ (53 - bitLen n) ≠ 2 ^ 53 := by omega
  simp only [F64.round, h0, if_false, hk, hk0, if_true, ht, hne, zero_add]
  rw [if_neg (by omega)]

theorem sign_mul_natAbs (v : Int) :
    (if decide (v < 0) = true then (-1 : ℚ) else 1) * (v.natAbs : ℚ) = (v : ℚ) := by
  by_cases hp : v < 0
  · simp only [hp, decide_True, if_true]
    rw [Nat.cast_natAbs, abs_of_neg hp]
    push_cast
    ring
  · simp only [hp, decide_False, Bool.false_eq_true, if_false, one_mul]
    rw [Nat.cast_natAbs, abs_of_nonneg (not_lt.1 hp)]

/-- The product of a converted 32-bit integer with a `float64` constant `M * 2^E` within
`2^-53` (relatively) of the rational `f` is within `2^-51` (relatively) of `v * f`. -/
theorem F64.mul_const_error (v : Int) (M : Nat) (E : Int) (f : ℚ) (hv : v.natAbs < 2 ^ 32)
    (hf : 0 < f) (hM0 : M ≠ 0) (hM : M < 2 ^ 53) (hE1 : -62 ≤ E) (hE2 : E ≤ -56)
    (hc : |(M : ℚ) * (2 : ℚ) ^ E - f| ≤ f * (2 : ℚ) ^ (-53 : Int)) :
    ∃ q, (F64.mul (F64.ofInt v) (.finite false M E)).toRat = some q ∧
      |q - (v : ℚ) * f| ≤ |(v : ℚ)| * f * (2 : ℚ) ^ (-51 : Int) := by
  by_cases h0 : v.natAbs = 0
  · have hv0 : v = 0 := Int.natAbs_eq_zero.1 h0
    subst hv0
    refine ⟨0, ?_, by simp⟩
    simp [F64.ofInt, F64.round, F64.mul, F64.toRat]
  · obtain ⟨n, hn⟩ : ∃ n, n = v.natAbs := ⟨_, rfl⟩
    rw [← hn] at h0 hv
    have hn53 : n < 2 ^ 53 := lt_trans hv (by norm_num)
    have hL := bitLen_le_of_lt n 53 hn53
    have hL0 := bitLen_pos n h0
    obtain ⟨m1, hm1⟩ : ∃ m1, m1 = n * 2 ^ (53 - bitLen n) := ⟨_, rfl⟩
    have hm1pos : m1 ≠ 0 := by
      rw [hm1]
      exact Nat.mul_ne_zero h0 (by positivity)
    have hm1lt : m1 < 2 ^ 53 := by
      rw [hm1]
      calc n * 2 ^ (53 - bitLen n) < 2 ^ bitLen n * 2 ^ (53 - bitLen n) :=
            Nat.mul_lt_mul_of_pos_right (lt_two_pow_bitLen n) (by positivity)
        _ = 2 ^ (bitLen n + (53 - bitLen n)) := (pow_add 2 _ _).symm
        _ = 2 ^ 53 := by congr 1; omega
    have hval1 : (m1 : ℚ) * (2 : ℚ) ^ ((bitLen n : Int) - 53) = (n : ℚ) := by
      have hz : ((bitLen n : Int) - 53) = -((53 - bitLen n : Nat) : Int) := by omega
      rw [hm1, hz, zpow_neg, zpow_natCast]
      push_cast
      field_simp
    have hprod0 : m1 * M ≠ 0 := Nat.mul_ne_zero hm1pos hM0
    have hb1 := bitLen_pos (m1 * M) hprod0
    have hb2 := bitLen_mul_le m1 M
    have hb3 := bitLen_le_of_lt m1 53 hm1lt
    have hb4 := bitLen_le_of_lt M 53 hM
    obtain ⟨m, x, hr, herr⟩ := F64.round_error (decide (v < 0) != false) (m1 * M)
      ((bitLen n : Int) - 53 + E) hprod0 (by omega) (by omega)
    have hexact : ((m1 * M : Nat) : ℚ) * (2 : ℚ) ^ ((bitLen n : Int) - 53 + E) =
        (n : ℚ) * ((M : ℚ) * (2 : ℚ) ^ E) := by
      rw [zpow_add₀ (by norm_num), ← hval1]
      push_cast
      ring
    rw [hexact] at herr
    refine ⟨(if decide (v < 0) = true then (-1 : ℚ) else 1) * (m : ℚ) * (2 : ℚ) ^ x, ?_, ?_⟩
    · rw [F64.ofInt, ← hn, F64.round_int_eq _ n h0 hn53, ← hm1, F64.mul, hr]
      simp [F64.toRat]
    · have hsv := sign_mul_natAbs v
      rw [← hn] at hsv
      have habs : |(v : ℚ)| = (n : ℚ) := by
        rw [hn, Nat.cast_natAbs]
        push_cast
        rfl
      rw [habs]
      have hsplit : (if decide (v < 0) = true then (-1 : ℚ) else 1) * (m : ℚ) * (2 : ℚ) ^ x -
          (v : ℚ) * f =
          (if decide (v < 0) = true then (-1 : ℚ) else 1) *
            ((m : ℚ) * (2 : ℚ) ^ x - (n : ℚ) * f) := by
        rw [← hsv]
        ring
      have hsign : |(if decide (v < 0) = true then (-1 : ℚ) else 1)| = 1 := by
        split <;> simp
      rw [hsplit, abs_mul, hsign, one_mul]
      have hn0 : (0 : ℚ) ≤ (n : ℚ) := by positivity
      have hcle : (M : ℚ) * (2 : ℚ) ^ E ≤ f * (1 + (2 : ℚ) ^ (-53 : Int)) := by
        have := (abs_le.1 hc).2
        linarith
      have h1 : |(m : ℚ) * (2 : ℚ) ^ x - (n : ℚ) * f| ≤
          |(m : ℚ) * (2 : ℚ) ^ x - (n : ℚ) * ((M : ℚ) * (2 : ℚ) ^ E)| +
            |(n : ℚ) * ((M : ℚ) * (2 : ℚ) ^ E) - (n : ℚ) * f| := by
        have := abs_add ((m : ℚ) * (2 : ℚ) ^ x - (n : ℚ) * ((M : ℚ) * (2 : ℚ) ^ E))
          ((n : ℚ) * ((M : ℚ) * (2 : ℚ) ^ E) - (n : ℚ) * f)
        simpa using this
      have h2 : |(n : ℚ) * ((M : ℚ) * (2 : ℚ) ^ E) - (n : ℚ) * f| ≤
          (n : ℚ) * (f * (2 : ℚ) ^ (-53 : Int)) := by
        rw [← mul_sub, abs_mul, abs_of_nonneg hn0]
        exact mul_le_mul_of_nonneg_left hc hn0
      have h3 : (n : ℚ) * ((M : ℚ) * (2 : ℚ) ^ E) * (2 : ℚ) ^ (-53 : Int) ≤
          (n : ℚ) * (f * (1 + (2 : ℚ) ^ (-53 : Int))) * (2 : ℚ) ^ (-53 : Int) := by
        apply mul_le_mul_of_nonneg_right _ (by positivity)
        exact mul_le_mul_of_nonneg_left hcle hn0
      have h4 : (n : ℚ) * (f * (1 + (2 : ℚ) ^ (-53 : Int))) * (2 : ℚ) ^ (-53 : Int) +
          (n : ℚ) * (f * (2 : ℚ) ^ (-53 : Int)) ≤ (n : ℚ) * f * (2 : ℚ) ^ (-51 : Int) := by
        have hnf : (0 : ℚ) ≤ (n : ℚ) * f := by positivity
        have : (1 + (2 : ℚ) ^ (-53 : Int)) * (2 : ℚ) ^ (-53 : Int) + (2 : ℚ) ^ (-53 : Int) ≤
            (2 : ℚ) ^ (-51 : Int) := by norm_num [zpow_neg]
        nlinarith [mul_le_mul_of_nonneg_left this hnf]
      linarith

theorem F64.ofInt_exact (p : Int) (h : p.natAbs < 2 ^ 53) :
    (F64.ofInt p).toRat = some (p : ℚ) := by
  rw [F64.ofInt, F64.round_int_exact _ _ h]
  congr 1
  by_cases hp : p < 0
  · simp only [hp, decide_True, if_true]
    rw [Nat.cast_natAbs, abs_of_neg hp]
    push_cast
    ring
  · simp only [hp, decide_False, Bool.false_eq_true, if_false, one_mul]
    rw [Nat.cast_natAbs, abs_of_nonneg (not_lt.1 hp)]

theorem digitChar_isDigit (n : Nat) (h : n < 10) : (Nat.digitChar n).isDigit = true := by
  interval_cases n <;> decide

theorem toDigitsCore_isDigit (fuel : Nat) : ∀ (n : Nat) (ds : List Char),
    (∀ c ∈ ds, c.isDigit = true) → ∀ c ∈ Nat.toDigitsCore 10 fuel n ds, c.isDigit = true := by
  induction fuel with
  | zero =>
    intro n ds h
    simpa [Nat.toDigitsCore] using h
  | succ fuel ih =>
    intro n ds h
    have hd : (Nat.digitChar (n % 10)).isDigit = true :=
      digitChar_isDigit _ (Nat.mod_lt _ (by norm_num))
    have hds : ∀ c ∈ Nat.digitChar (n % 10) :: ds, c.isDigit = true := by
      intro c hc
      rcases List.mem_cons.1 hc with rfl | hc
      · exact hd
      · exact h c hc
    simp only [Nat.toDigitsCore]
    split
    · exact hds
    · exact ih _ _ hds

theorem toDigitsCore_ne_nil (fuel : Nat) : ∀ (n : Nat) (ds : List Char),
    (fuel ≠ 0 ∨ ds ≠ []) → Nat.toDigitsCore 10 fuel n ds ≠ [] := by
  induction fuel with
  | zero =>
    intro n ds h
    rcases h with h | h
    · exact absurd rfl h
    · simpa [Nat.toDigitsCore] using h
  | succ fuel ih =>
    intro n ds _
    simp only [Nat.toDigitsCore]
    split
    · simp
    · exact ih _ _ (Or.inr (by simp))

theorem toDigits_isDigit (n : Nat) : ∀ c ∈ Nat.toDigits 10 n, c.isDigit = true :=
  toDigitsCore_isDigit _ _ _ (by simp)

theorem toDigits_ne_nil (n : Nat) : Nat.toDigits 10 n ≠ [] :=
  toDigitsCore_ne_nil _ _ _ (Or.inl (by omega))

theorem toDigits_length_le (n e : Nat) (he : 0 < e) (h : n < 10 ^ e) :
    (Nat.toDigits 10 n).length ≤ e :=
  Nat.toDigitsCore_length 10 (by norm_num) _ _ _ h he

theorem F64.padDigits_length (w n : Nat) (hw : 0 < w) (h : n < 10 ^ w) :
    (F64.padDigits w n).length = w := by
  have := toDigits_length_le n w hw h
  simp only [F64.padDigits, List.length_append, List.length_replicate]
  omega

theorem F64.padDigits_isDigit (w n : Nat) : ∀ c ∈ F64.padDigits w n, c.isDigit = true := by
  intro c hc
  simp only [F64.padDigits, List.mem_append, List.mem_replicate] at hc
  rcases hc with ⟨_, rfl⟩ | hc
  · decide
  · exact toDigits_isDigit n c hc

theorem F64.formatFixed_shape (neg : Bool) (m : Nat) (e : Int) :
    IsFixed3 (F64.formatFixed 3 (.finite neg m e)) := by
  simp only [F64.formatFixed, show ¬ (3 = 0) by norm_num, if_false]
  generalize (if 0 ≤ e then m * 2 ^ e.toNat * 10 ^ 3
    else divRNE (m * 10 ^ 3) (2 ^ (-e).toNat)) = scaled
  refine ⟨(if neg then "-" else "").data, Nat.toDigits 10 (scaled / 10 ^ 3),
    F64.padDigits 3 (scaled % 10 ^ 3), ?_, ?_, toDigits_ne_nil _, toDigits_isDigit _,
    F64.padDigits_length 3 _ (by norm_num) (Nat.mod_lt _ (by norm_num)),
    F64.padDigits_isDigit 3 _⟩
  · simp [String.data_append]
  · cases neg <;> simp

/-! ## Lemmas on the metric map -/

theorem MetricMap.get_set (m : MetricMap) (k : String) (x : RoundedFloat) (k' : String) :
    (m.set k x).get k' = if k = k' then some x else m.get k' := by
  induction m with
  | nil => simp [MetricMap.set, MetricMap.get]
  | cons e rest ih =>
    obtain ⟨a, y⟩ := e
    by_cases h : a = k
    · subst h
      by_cases h' : a = k' <;> simp [MetricMap.set, MetricMap.get, h']
    · by_cases h' : a = k'
      · subst h'
        have : ¬ k = a := fun hk => h hk.symm
        simp [MetricMap.set, MetricMap.get, h, this]
      · simp [MetricMap.set, MetricMap.get, h, h', ih]

theorem get_setIfPresent {α : Type} (m : MetricMap) (k : String) (o : Option α)
    (f : α → RoundedFloat) (k' : String) :
    (setIfPresent m k o f).get k' = if k = k' then (o.map f <|> m.get k') else m.get k' := by
  cases o with
  | none => simp [setIfPresent]
  | some x => simp [setIfPresent, MetricMap.get_set]

theorem MetricMap.mem_keys_iff (m : MetricMap) (k : String) :
    k ∈ m.keys ↔ m.get k ≠ none := by
  induction m with
  | nil => simp [MetricMap.keys, MetricMap.get]
  | cons e rest ih =>
    obtain ⟨a, y⟩ := e
    by_cases h : a = k
    · simp [MetricMap.keys, MetricMap.get, h]
    · have h' : ¬ k = a := fun hk => h hk.symm
      simp only [MetricMap.keys] at ih
      simp [MetricMap.keys, MetricMap.get, h, h', ih]

/-! ## Presence and scaling of the metrics -/

theorem F64.ofInt_natCast (n : Nat) : F64.ofInt (n : Int) = F64.ofNat n := by
  have h : ¬ ((n : Int) < 0) := by omega
  simp [F64.ofInt, F64.ofNat, h]

theorem Group.scaled_activePower : Group.scaled .activePower = F64.ofInt := by
  funext v; rfl

theorem Group.scaled_frequency : Group.scaled .frequency = F64.ofInt := by
  funext v; rfl

/-- The entry of the map under each canonical name, read off the reading. -/
theorem rescale_get (data : Pc321State) (reg : Nat) (name : String) (g : Group)
    (h : (reg, name, g) ∈ scaleTable) :
    (rescale data).get name = (data.register reg).map g.scaled := by
  fin_cases h <;>
    simp [rescale, get_setIfPresent, MetricMap.get, Pc321State.register, Group.scaled,
      Function.comp_def, F64.ofInt_natCast, Group.scaled_activePower, Group.scaled_frequency]

theorem F64.c0_1_nearest : F64.Nearest F64.c0_1 (1 / 10) := by
  refine ⟨false, 7205759403792794, -56, rfl, by norm_num, by norm_num, by norm_num,
    by norm_num, ?_⟩
  rw [abs_lt]
  constructor <;> norm_num [zpow_neg]

theorem F64.c0_01_nearest : F64.Nearest F64.c0_01 (1 / 100) := by
  refine ⟨false, 5764607523034235, -59, rfl, by norm_num, by norm_num, by norm_num,
    by norm_num, ?_⟩
  rw [abs_lt]
  constructor <;> norm_num [zpow_neg]

theorem F64.c0_001_nearest : F64.Nearest F64.c0_001 (1 / 1000) := by
  refine ⟨false, 4611686018427388, -62, rfl, by norm_num, by norm_num, by norm_num,
    by norm_num, ?_⟩
  rw [abs_lt]
  constructor <;> norm_num [zpow_neg]

/-- The stored `float64` is within `2^-51` (relatively) of the exact product of the raw value
and the scale factor of its group. -/
theorem Group.scaled_error (g : Group) (v : Int) (h : v.natAbs < 2 ^ 32) :
    ∃ q, (g.scaled v).toRat = some q ∧
      |q - (v : ℚ) * g.factor| ≤ |(v : ℚ)| * g.factor * (2 : ℚ) ^ (-51 : Int) := by
  have h01 := F64.mul_const_error v 7205759403792794 (-56) (1 / 10) h (by norm_num)
    (by norm_num) (by norm_num) (by norm_num) (by norm_num)
    (by rw [abs_le]; constructor <;> norm_num [zpow_neg])
  have h001 := F64.mul_const_error v 5764607523034235 (-59) (1 / 100) h (by norm_num)
    (by norm_num) (by norm_num) (by norm_num) (by norm_num)
    (by rw [abs_le]; constructor <;> norm_num [zpow_neg])
  have h0001 := F64.mul_const_error v 4611686018427388 (-62) (1 / 1000) h (by norm_num)
    (by norm_num) (by norm_num) (by norm_num) (by norm_num)
    (by rw [abs_le]; constructor <;> norm_num [zpow_neg])
  have hex : ∃ q, (F64.ofInt v).toRat = some q ∧
      |q - (v : ℚ) * 1| ≤ |(v : ℚ)| * 1 * (2 : ℚ) ^ (-51 : Int) :=
    ⟨v, F64.ofInt_exact v (lt_trans h (by norm_num)), by
      rw [mul_one, sub_self, abs_zero]
      positivity⟩
  cases g
  · exact h01
  · exact h0001
  · exact hex
  · exact h001
  · exact h0001
  · exact hex
  · exact h01

/-- C1: for each of the twenty mapped registers, the output metric map built by the main loop
contains the register's metric name if and only if the register is present in the reading;
an absent register leaves no entry under that name (no zero fill). -/
theorem metric_present_iff_register_present (data : Pc321State) (reg : Nat) (name : String)
    (g : Group) (h : (reg, name, g) ∈ scaleTable) :
    (name ∈ (rescale data).keys ↔ data.register reg ≠ none) ∧
      (data.register reg = none → (rescale data).get name = none) := by
  rw [MetricMap.mem_keys_iff, rescale_get data reg name g h]
  constructor
  · simp
  · intro hn
    simp [hn]

theorem metric_present_iff_register_present_witness :
    (101, "voltage_l1", Group.voltage) ∈ scaleTable ∧
      (("voltage_l1" ∈ (rescale { VoltageL1 := some 2300 }).keys ↔
          Pc321State.register { VoltageL1 := some 2300 } 101 ≠ none) ∧
        (Pc321State.register { VoltageL1 := some 2300 } 101 = none →
          (rescale { VoltageL1 := some 2300 }).get "voltage_l1" = none)) :=
  ⟨by decide, metric_present_iff_register_present _ 101 "voltage_l1" .voltage (by decide)⟩

/-- C2: for every reading and every present mapped register with a 32-bit raw value `v`, the
value stored under the register's canonical name is `v` multiplied in `float64` by the scale
factor of its group: the stored number is within a relative `2^-51` of `v` times 0.1 (voltage,
temperature), 0.001 (current, energy), 0.01 (power factor) or 1 (active power, frequency),
being the `float64` product of the converted `v` with the `float64` constant closest to the
factor, or the converted `v` itself for factor 1; energy uses 0.001. -/
theorem metric_value_scaled (data : Pc321State) (reg : Nat) (name : String) (g : Group)
    (v : Int) (h : (reg, name, g) ∈ scaleTable) (hv : data.register reg = some v)
    (hr : -(2 : Int) ^ 31 ≤ v ∧ v < 2 ^ 32) :
    (rescale data).get name = some (g.scaled v) ∧
      (∃ q, (g.scaled v).toRat = some q ∧
        |q - (v : ℚ) * g.factor| ≤ |(v : ℚ)| * g.factor * (2 : ℚ) ^ (-51 : Int)) ∧
      (g = .voltage ∨ g = .temperature →
        g.factor = 1 / 10 ∧ g.scaled v = F64.mul (F64.ofInt v) F64.c0_1 ∧
          F64.Nearest F64.c0_1 (1 / 10)) ∧
      (g = .current ∨ g = .energy →
        g.factor = 1 / 1000 ∧ g.scaled v = F64.mul (F64.ofInt v) F64.c0_001 ∧
          F64.Nearest F64.c0_001 (1 / 1000)) ∧
      (g = .powerFactor →
        g.factor = 1 / 100 ∧ g.scaled v = F64.mul (F64.ofInt v) F64.c0_01 ∧
          F64.Nearest F64.c0_01 (1 / 100)) ∧
      (g = .activePower ∨ g = .frequency → g.factor = 1 ∧ g.scaled v = F64.ofInt v) := by
  refine ⟨by rw [rescale_get data reg name g h, hv]; rfl, g.scaled_error v (by omega),
    ?_, ?_, ?_, ?_⟩
  · rintro (rfl | rfl) <;> exact ⟨rfl, rfl, F64.c0_1_nearest⟩
  · rintro (rfl | rfl) <;> exact ⟨rfl, rfl, F64.c0_001_nearest⟩
  · rintro rfl
    exact ⟨rfl, rfl, F64.c0_01_nearest⟩
  · rintro (rfl | rfl) <;> exact ⟨rfl, rfl⟩

theorem metric_value_scaled_witness :
    (106, "energy_l1", Group.energy) ∈ scaleTable ∧
      Pc321State.register { EnergyConsumptionL1 := some 123456 } 106 = some 123456 ∧
      (-(2 : Int) ^ 31 ≤ 123456 ∧ (123456 : Int) < 2 ^ 32) ∧
      (rescale { EnergyConsumptionL1 := some 123456 }).get "energy_l1" =
        some (Group.energy.scaled 123456) ∧
      ∃ q, (Group.energy.scaled 123456).toRat = some q ∧
        |q - ((123456 : Int) : ℚ) * Group.energy.factor| ≤
          |((123456 : Int) : ℚ)| * Group.energy.factor * (2 : ℚ) ^ (-51 : Int) :=
  ⟨by decide, by decide, by decide,
    (metric_value_scaled { EnergyConsumptionL1 := some 123456 } 106 "energy_l1" .energy 123456
      (by decide) (by decide) (by decide)).1,
    (metric_value_scaled { EnergyConsumptionL1 := some 123456 } 106 "energy_l1" .energy 123456
      (by decide) (by decide) (by decide)).2.1⟩

set_option maxRecDepth 8000 in
/-- C3: end to end (decode, rescale, serialize), a payload carrying the raw voltage 2300 is
published as 230.000, the raw current 1500 as 1.500, the raw power factor 95 as 0.950 and the
raw energy 123456 as 123.456, whatever the topic and the transport's answer. -/
theorem scale_examples_end_to_end (topic : String) (token : Token) :
    iteration ⟨topic, .document (.object [("101", .number (.integer false 2300))])⟩ token =
        [.log .debug "Received message", .log .info "Publishing message",
          .publish "smacker/pc321" 0 false "\x7b\"voltage_l1\":230.000\x7d"] ++
          publishChecks token ∧
      iteration ⟨topic, .document (.object [("102", .number (.integer false 1500))])⟩ token =
        [.log .debug "Received message", .log .info "Publishing message",
          .publish "smacker/pc321" 0 false "\x7b\"current_l1\":1.500\x7d"] ++
          publishChecks token ∧
      iteration ⟨topic, .document (.object [("104", .number (.integer false 95))])⟩ token =
        [.log .debug "Received message", .log .info "Publishing message",
          .publish "smacker/pc321" 0 false "\x7b\"power_factor_l1\":0.950\x7d"] ++
          publishChecks token ∧
      iteration ⟨topic, .document (.object [("106", .number (.integer false 123456))])⟩ token =
        [.log .debug "Received message", .log .info "Publishing message",
          .publish "smacker/pc321" 0 false "\x7b\"energy_l1\":123.456\x7d"] ++
          publishChecks token := by
  refine ⟨?_, ?_, ?_, ?_⟩ <;> rfl

theorem Group.scaled_finite (g : Group) (v : Int) (h : v.natAbs < 2 ^ 32) :
    ∃ neg m e, g.scaled v = .finite neg m e := by
  have hb : bitLen v.natAbs ≤ 32 := bitLen_le_of_lt _ _ h
  obtain ⟨m1, x1, h1, hm1, hx1⟩ :=
    F64.round_finite (decide (v < 0)) v.natAbs 0 (by omega)
  have key : ∀ (M : Nat) (E : Int), M < 2 ^ 53 → E ≤ -56 →
      ∃ neg m e, F64.mul (F64.ofInt v) (.finite false M E) = .finite neg m e := by
    intro M E hM hE
    have hbm := bitLen_mul_le m1 M
    have hb1 := bitLen_le_of_lt m1 53 hm1
    have hb2 := bitLen_le_of_lt M 53 hM
    obtain ⟨m2, x2, h2, _, _⟩ :=
      F64.round_finite (decide (v < 0) != false) (m1 * M) (x1 + E) (by omega)
    exact ⟨_, m2, x2, by rw [F64.ofInt, h1, F64.mul, h2]⟩
  cases g
  · exact key _ _ (by norm_num) (by norm_num)
  · exact key _ _ (by norm_num) (by norm_num)
  · exact ⟨_, m1, x1, h1⟩
  · exact key _ _ (by norm_num) (by norm_num)
  · exact key _ _ (by norm_num) (by norm_num)
  · exact ⟨_, m1, x1, h1⟩
  · exact key _ _ (by norm_num) (by norm_num)

set_option maxRecDepth 8000 in
/-- C4: for every signed 32-bit value `p` of an active-power register (103, 113, 123, 133),
the metric stored under the register's name (power_l1, power_l2, power_l3, power) is the
`float64` conversion of `p`, whose exact value is `p` itself (sign kept, no scaling); a payload
carrying the value -500 in register 103 is published as -500.000. -/
theorem active_power_unscaled (data : Pc321State) (reg : Nat) (name : String) (p : Int)
    (topic : String) (token : Token)
    (h : (reg, name, Group.activePower) ∈ scaleTable) (hp : data.register reg = some p)
    (hr : -(2 : Int) ^ 31 ≤ p ∧ p < 2 ^ 31) :
    (rescale data).get name = some (F64.ofInt p) ∧ (F64.ofInt p).toRat = some (p : ℚ) ∧
      iteration ⟨topic, .document (.object [("103", .number (.integer true 500))])⟩ token =
        [.log .debug "Received message", .log .info "Publishing message",
          .publish "smacker/pc321" 0 false "\x7b\"power_l1\":-500.000\x7d"] ++
          publishChecks token := by
  refine ⟨?_, F64.ofInt_exact p (by omega), rfl⟩
  rw [rescale_get data reg name _ h, hp]
  rfl

theorem active_power_unscaled_witness :
    (133, "power", Group.activePower) ∈ scaleTable ∧
      Pc321State.register { TotalActivePower := some (-500) } 133 = some (-500) ∧
      (-(2 : Int) ^ 31 ≤ -500 ∧ (-500 : Int) < 2 ^ 31) ∧
      (rescale { TotalActivePower := some (-500) }).get "power" = some (F64.ofInt (-500)) ∧
      (F64.ofInt (-500)).toRat = some ((-500 : Int) : ℚ) :=
  ⟨by decide, by decide, by decide,
    (active_power_unscaled { TotalActivePower := some (-500) } 133 "power" (-500) "" ⟨true, false⟩
      (by decide) (by decide) (by decide)).1,
    (active_power_unscaled { TotalActivePower := some (-500) } 133 "power" (-500) "" ⟨true, false⟩
      (by decide) (by decide) (by decide)).2.1⟩

/-- C5: for every value a metric can take (a signed or unsigned 32-bit register value scaled by
its group), `RoundedFloat.MarshalJSON` succeeds and returns fixed-point decimal text: an
optional minus sign, one or more digits, a point and exactly three digits, with no exponent
and no suppression of trailing zeros. -/
theorem marshalJSON_fixed3 (g : Group) (v : Int) (h : -(2 : Int) ^ 31 ≤ v ∧ v < 2 ^ 32) :
    ∃ s, RoundedFloat.MarshalJSON (g.scaled v) = .ok s ∧ IsFixed3 s := by
  obtain ⟨neg, m, e, hx⟩ := g.scaled_finite v (by omega)
  exact ⟨_, rfl, by rw [hx]; exact F64.formatFixed_shape neg m e⟩

theorem marshalJSON_fixed3_witness :
    (-(2 : Int) ^ 31 ≤ 2300 ∧ (2300 : Int) < 2 ^ 32) ∧
      ∃ s, RoundedFloat.MarshalJSON (Group.voltage.scaled 2300) = .ok s ∧ IsFixed3 s :=
  ⟨by decide, marshalJSON_fixed3 .voltage 2300 (by decide)⟩

/-! ## Dropped messages -/

theorem mainLoop_append (pre rest : List (Message × Token)) :
    mainLoop (pre ++ rest) = mainLoop pre ++ mainLoop rest := by
  induction pre with
  | nil => rfl
  | cons m pre ih =>
    obtain ⟨incoming, token⟩ := m
    simp [mainLoop, ih]

/-- C6: for a payload that is not syntactically valid JSON, the loop pass logs exactly one
error, the decode error, and makes no publish call; the process does not exit, and the loop
goes on with the messages that follow. -/
theorem malformed_payload_dropped (flags : Flags) (env : Env) (pre rest : List (Message × Token))
    (topic : String) (token : Token) (ht : flags.topic ≠ "")
    (hc : env.connect = ⟨true, false⟩) (hs : env.subscribe = ⟨true, false⟩)
    (hi : env.inbox = pre ++ (⟨topic, .malformed⟩, token) :: rest) :
    iteration ⟨topic, .malformed⟩ token =
        [.log .debug "Received message", .log .error "Failed to unmarshal message"] ∧
      (∀ t q r p, Action.publish t q r p ∉ iteration ⟨topic, .malformed⟩ token) ∧
      ((iteration ⟨topic, .malformed⟩ token).filter
        (fun a => match a with | .log .error _ => true | _ => false)).length = 1 ∧
      main flags env =
        ([.connect flags.broker] ++ publishConfig env.config ++ [.subscribe flags.topic 0] ++
          mainLoop pre ++ iteration ⟨topic, .malformed⟩ token ++ mainLoop rest, .waiting) := by
  have hit : iteration ⟨topic, .malformed⟩ token =
      [.log .debug "Received message", .log .error "Failed to unmarshal message"] := rfl
  refine ⟨hit, ?_, ?_, ?_⟩
  · intro t q r p
    rw [hit]
    simp
  · rw [hit]
    rfl
  · simp [main, ht, hc, hs, hi, mainLoop_append, mainLoop]

theorem malformed_payload_dropped_witness :
    main { topic := "pc321/raw" }
        { connect := ⟨true, false⟩, config := fun _ => ⟨true, false⟩, subscribe := ⟨true, false⟩,
          inbox := [] ++ [(⟨"pc321/raw", .malformed⟩, ⟨true, false⟩)] } =
      ([.connect ""] ++ publishConfig (fun _ => ⟨true, false⟩) ++ [.subscribe "pc321/raw" 0] ++
        mainLoop [] ++ iteration ⟨"pc321/raw", .malformed⟩ ⟨true, false⟩ ++ mainLoop [],
        .waiting) :=
  (malformed_payload_dropped { topic := "pc321/raw" }
    { connect := ⟨true, false⟩, config := fun _ => ⟨true, false⟩, subscribe := ⟨true, false⟩,
      inbox := [] ++ [(⟨"pc321/raw", .malformed⟩, ⟨true, false⟩)] } [] []
    "pc321/raw" ⟨true, false⟩ (by decide) rfl rfl rfl).2.2.2

theorem decodeUint_some (bits : Nat) (n : JNumber) (x : Nat) (h : decodeUint bits n = some x) :
    n = .integer false x ∧ x < 2 ^ bits := by
  cases n with
  | integer neg a =>
    cases neg <;> simp only [decodeUint, Bool.false_eq_true, if_false, if_true] at h
    · split at h
      · simp at h
      · split at h
        · simp at h
        · simp only [Option.some.injEq] at h
          subst h
          exact ⟨rfl, by omega⟩
    · simp at h
  | scientific neg ds fl ex => simp [decodeUint] at h

theorem decodeInt_some (bits : Nat) (n : JNumber) (z : Int) (h : decodeInt bits n = some z) :
    (∃ neg a, n = .integer neg a ∧ z = if neg then -(a : Int) else (a : Int)) ∧
      -(2 : Int) ^ (bits - 1) ≤ z ∧ z < (2 : Int) ^ (bits - 1) := by
  cases n with
  | integer neg a =>
    cases neg
    · simp only [decodeInt, Bool.false_eq_true, if_false] at h
      simp at h
      obtain ⟨_, ⟨h2, h3⟩, rfl⟩ := h
      exact ⟨⟨false, a, rfl, by simp⟩, h2, h3⟩
    · simp only [decodeInt, if_true] at h
      simp at h
      obtain ⟨_, ⟨h2, h3⟩, rfl⟩ := h
      exact ⟨⟨true, a, rfl, by simp⟩, by omega, h3⟩
  | scientific neg ds fl ex => simp [decodeInt] at h

theorem decodeUint_out_of_range (bits : Nat) (n : JNumber)
    (h : ¬ ((0 : ℚ) ≤ n.value ∧ n.value ≤ ((2 ^ bits - 1 : Int) : ℚ))) :
    decodeUint bits n = none := by
  cases hd : decodeUint bits n with
  | none => rfl
  | some x =>
    exfalso
    obtain ⟨rfl, hx⟩ := decodeUint_some bits n x hd
    apply h
    simp only [JNumber.value, Bool.false_eq_true, if_false, one_mul]
    refine ⟨by positivity, ?_⟩
    have : (x : Int) ≤ 2 ^ bits - 1 := by
      have : ((x : Nat) : Int) < ((2 ^ bits : Nat) : Int) := by exact_mod_cast hx
      push_cast at this
      omega
    exact_mod_cast this

theorem decodeInt_out_of_range (bits : Nat) (n : JNumber)
    (h : ¬ (((-2 ^ (bits - 1) : Int) : ℚ) ≤ n.value ∧
      n.value ≤ ((2 ^ (bits - 1) - 1 : Int) : ℚ))) :
    decodeInt bits n = none := by
  cases hd : decodeInt bits n with
  | none => rfl
  | some z =>
    exfalso
    obtain ⟨⟨neg, a, rfl, hz⟩, hlo, hhi⟩ := decodeInt_some bits n z hd
    apply h
    have hv : JNumber.value (.integer neg a) = ((z : Int) : ℚ) := by
      cases neg <;> simp [JNumber.value, hz]
    rw [hv]
    constructor
    · have : (-2 ^ (bits - 1) : Int) ≤ z := by omega
      exact_mod_cast this
    · have : z ≤ (2 ^ (bits - 1) - 1 : Int) := by omega
      exact_mod_cast this

theorem Decoder.saveError_true (d : Decoder) (v : JValue) (key : String) :
    (Decoder.saveError d true v key).savedError ≠ none := by
  unfold Decoder.saveError
  by_cases h : d.savedError = none <;> simp [h]

theorem Decoder.saveError_keeps (d : Decoder) (failed : Bool) (v : JValue) (key : String)
    (h : d.savedError ≠ none) : (Decoder.saveError d failed v key).savedError ≠ none := by
  unfold Decoder.saveError
  simp [h]

theorem storeField_fail {α : Type} (zero : α) (dec : JNumber → Option α) (cur : Option α)
    (n : JNumber) (h : dec n = none) : (storeField zero dec cur (.number n)).2 = true := by
  simp [storeField, h]

theorem Decoder.member_keeps_error (d : Decoder) (key : String) (v : JValue)
    (h : d.savedError ≠ none) : (d.member key v).savedError ≠ none := by
  unfold Decoder.member
  split <;> first | exact h | exact Decoder.saveError_keeps _ _ _ _ h

theorem Decoder.member_out_of_range (d : Decoder) (key : String) (n : JNumber) (w : Width)
    (hw : fieldWidth key = some w)
    (h : ¬ ((w.lo : ℚ) ≤ n.value ∧ n.value ≤ (w.hi : ℚ))) :
    (d.member key (.number n)).savedError ≠ none := by
  have hu32 : w = .uint32 → decodeUint 32 n = none := by
    rintro rfl
    exact decodeUint_out_of_range 32 n (by simpa [Width.lo, Width.hi] using h)
  have hu8 : w = .uint8 → decodeUint 8 n = none := by
    rintro rfl
    exact decodeUint_out_of_range 8 n (by simpa [Width.lo, Width.hi] using h)
  have hi32 : w = .int32 → decodeInt 32 n = none := by
    rintro rfl
    exact decodeInt_out_of_range 32 n (by simpa [Width.lo, Width.hi] using h)
  unfold fieldWidth at hw
  split at hw <;> cases hw <;>
    first
    | (simp only [Decoder.member, storeField_fail _ _ _ _ (hu32 rfl)]
       exact Decoder.saveError_true _ _ _)
    | (simp only [Decoder.member, storeField_fail _ _ _ _ (hi32 rfl)]
       exact Decoder.saveError_true _ _ _)
    | (simp only [Decoder.member, storeField_fail _ _ _ _ (hu8 rfl)]
       exact Decoder.saveError_true _ _ _)

theorem Decoder.foldl_keeps_error (members : List (String × JValue)) (d : Decoder)
    (h : d.savedError ≠ none) :
    (members.foldl (fun d kv => d.member kv.1 kv.2) d).savedError ≠ none := by
  induction members generalizing d with
  | nil => exact h
  | cons kv rest ih => exact ih _ (Decoder.member_keeps_error d kv.1 kv.2 h)

theorem Decoder.foldl_out_of_range (members : List (String × JValue)) (d : Decoder)
    (key : String) (n : JNumber) (w : Width) (hm : (key, JValue.number n) ∈ members)
    (hw : fieldWidth key = some w)
    (h : ¬ ((w.lo : ℚ) ≤ n.value ∧ n.value ≤ (w.hi : ℚ))) :
    (members.foldl (fun d kv => d.member kv.1 kv.2) d).savedError ≠ none := by
  induction members generalizing d with
  | nil => simp at hm
  | cons kv rest ih =>
    rcases List.mem_cons.1 hm with rfl | hm
    · exact Decoder.foldl_keeps_error rest _ (Decoder.member_out_of_range d key n w hw h)
    · exact ih _ hm

theorem iteration_of_error (topic : String) (p : Payload) (token : Token) (e : DecodeError)
    (h : Unmarshal p = .error e) :
    iteration ⟨topic, p⟩ token =
      [.log .debug "Received message", .log .error "Failed to unmarshal message"] := by
  simp [iteration, h]

/-- C7: when some recognized register key of the payload carries a number outside the range of
its declared integer type (uint32, int32 for the active-power registers 103/113/123/133, uint8
for 137/138), decoding fails and the loop pass only logs the decode error: nothing is
published, no truncated or wrapped value reaches the output. -/
theorem out_of_range_value_dropped (members : List (String × JValue)) (key : String)
    (n : JNumber) (w : Width) (topic : String) (token : Token)
    (hm : (key, JValue.number n) ∈ members) (hw : fieldWidth key = some w)
    (h : ¬ ((w.lo : ℚ) ≤ n.value ∧ n.value ≤ (w.hi : ℚ))) :
    (∃ e, Unmarshal (.document (.object members)) = .error e) ∧
      iteration ⟨topic, .document (.object members)⟩ token =
        [.log .debug "Received message", .log .error "Failed to unmarshal message"] ∧
      ∀ t q r p, Action.publish t q r p ∉ iteration ⟨topic, .document (.object members)⟩ token := by
  have herr : ∃ e, Unmarshal (.document (.object members)) = .error e := by
    have := Decoder.foldl_out_of_range members ⟨{}, none⟩ key n w hm hw h
    cases hs : (decodeObject members).savedError with
    | none => exact absurd hs this
    | some e => exact ⟨e, by simp only [Unmarshal, hs]⟩
  obtain ⟨e, he⟩ := herr
  have hit := iteration_of_error topic _ token e he
  refine ⟨⟨e, he⟩, hit, ?_⟩
  intro t q r p
  rw [hit]
  simp

theorem out_of_range_value_dropped_witness :
    ("101", JValue.number (.integer false 4294967296)) ∈
        [("101", JValue.number (.integer false 4294967296))] ∧
      fieldWidth "101" = some .uint32 ∧
      (¬ ((Width.uint32.lo : ℚ) ≤ (JNumber.integer false 4294967296).value ∧
        (JNumber.integer false 4294967296).value ≤ (Width.uint32.hi : ℚ))) ∧
      iteration ⟨"", .document (.object [("101", JValue.number (.integer false 4294967296))])⟩
          ⟨true, false⟩ =
        [.log .debug "Received message", .log .error "Failed to unmarshal message"] :=
  ⟨by simp, rfl, by norm_num [Width.lo, Width.hi, JNumber.value],
    (out_of_range_value_dropped [("101", JValue.number (.integer false 4294967296))] "101"
      (.integer false 4294967296) .uint32 "" ⟨true, false⟩ (by simp) rfl
      (by norm_num [Width.lo, Width.hi, JNumber.value])).2.1⟩

/-- C8: the temperature register 136 is declared `*uint32`, so a payload carrying the value
-50, inside the range -100 to 800 that the comment above the temperature assignment documents,
is not decoded: the loop pass logs the decode error and publishes nothing. -/
theorem negative_temperature_dropped (topic : String) (token : Token) :
    (∃ e, Unmarshal (.document (.object [("136", .number (.integer true 50))])) = .error e) ∧
      iteration ⟨topic, .document (.object [("136", .number (.integer true 50))])⟩ token =
        [.log .debug "Received message", .log .error "Failed to unmarshal message"] :=
  ⟨⟨_, rfl⟩, rfl⟩

/-- C10: with the topic flag empty, `main` logs an error and returns before any connect,
subscribe or publish; returning from `main` ends the process with exit status 0. -/
theorem empty_topic_exits_zero (flags : Flags) (env : Env) :
    main { flags with topic := "" } env =
      ([.log .error "Invalid setting for -topic, must not be empty"], .exit 0) := by
  simp [main]

/-! ## Unrecognized keys -/

theorem Decoder.member_unrecognized (d : Decoder) (key : String) (v : JValue)
    (h : fieldWidth key = none) : d.member key v = d := by
  unfold Decoder.member
  split <;> first | rfl | exact absurd h (by simp [fieldWidth])

theorem Decoder.foldl_filter (members : List (String × JValue)) (d : Decoder) :
    members.foldl (fun d kv => d.member kv.1 kv.2) d =
      (members.filter fun kv => (fieldWidth kv.1).isSome).foldl
        (fun d kv => d.member kv.1 kv.2) d := by
  induction members generalizing d with
  | nil => rfl
  | cons kv rest ih =>
    cases hk : fieldWidth kv.1 with
    | none =>
      simp only [List.foldl_cons, List.filter_cons, hk, Option.isSome_none, Bool.false_eq_true,
        if_false]
      rw [Decoder.member_unrecognized d kv.1 kv.2 hk]
      exact ih d
    | some w =>
      simp only [List.foldl_cons, List.filter_cons, hk, Option.isSome_some, if_true]
      exact ih _

theorem rescale_keys_canonical (data : Pc321State) (k : String) (hk : k ∈ (rescale data).keys) :
    k ∈ canonicalNames := by
  rw [MetricMap.mem_keys_iff] at hk
  by_contra hn
  apply hk
  simp only [canonicalNames, List.mem_cons, List.mem_singleton, List.not_mem_nil, or_false,
    not_or] at hn
  obtain ⟨h1, h2, h3, h4, h5, h6, h7, h8, h9, h10, h11, h12, h13, h14, h15, h16, h17, h18, h19,
    h20⟩ := hn
  simp [rescale, get_setIfPresent, MetricMap.get, Ne.symm h1, Ne.symm h2, Ne.symm h3,
    Ne.symm h4, Ne.symm h5, Ne.symm h6, Ne.symm h7, Ne.symm h8, Ne.symm h9, Ne.symm h10,
    Ne.symm h11, Ne.symm h12, Ne.symm h13, Ne.symm h14, Ne.symm h15, Ne.symm h16, Ne.symm h17,
    Ne.symm h18, Ne.symm h19, Ne.symm h20]

/-- C9: keys of the payload object that are not recognized register IDs are ignored: decoding
gives the same result, and the loop pass makes the same calls, as for the payload with those
members removed (so they cause no decode failure), and every key of the output map is one of
the twenty canonical metric names. -/
theorem unrecognized_keys_ignored (members : List (String × JValue)) (topic : String)
    (token : Token) :
    Unmarshal (.document (.object members)) =
        Unmarshal (.document (.object (members.filter fun kv => (fieldWidth kv.1).isSome))) ∧
      iteration ⟨topic, .document (.object members)⟩ token =
        iteration ⟨topic,
          .document (.object (members.filter fun kv => (fieldWidth kv.1).isSome))⟩ token ∧
      ∀ data : Pc321State, ∀ k ∈ (rescale data).keys, k ∈ canonicalNames := by
  have hd : decodeObject members =
      decodeObject (members.filter fun kv => (fieldWidth kv.1).isSome) :=
    Decoder.foldl_filter members ⟨{}, none⟩
  have hu : Unmarshal (.document (.object members)) =
      Unmarshal (.document (.object (members.filter fun kv => (fieldWidth kv.1).isSome))) := by
    simp only [Unmarshal, hd]
  exact ⟨hu, by simp only [iteration, hu], rescale_keys_canonical⟩

/-! ## The empty object, the unmapped registers and the discovery messages -/

/-- C12: the empty JSON object decodes without error to a reading with every register absent,
the output metric map is empty and is serialized as the empty object, which is what the loop
pass publishes. -/
theorem empty_object_empty_map (topic : String) (token : Token) :
    Unmarshal (.document (.object [])) = .ok {} ∧
      (∀ reg, Pc321State.register {} reg = none) ∧
      rescale {} = [] ∧ Marshal (rescale {}) = .ok "\x7b\x7d" ∧
      iteration ⟨topic, .document (.object [])⟩ token =
        [.log .debug "Received message", .log .info "Publishing message",
          .publish "smacker/pc321" 0 false "\x7b\x7d"] ++ publishChecks token := by
  refine ⟨rfl, ?_, rfl, rfl, rfl⟩
  intro reg
  unfold Pc321State.register
  split <;> rfl

/-- C14: the device-status (137) and phase-sequence-detection (138) registers are decoded into
the reading but feed no metric: two readings that differ only in these two fields give the
same output metric map, and a payload carrying only these two registers is published as the
empty object. -/
theorem status_registers_unmapped (d1 d2 : Pc321State) (topic : String) (token : Token)
    (h : { d1 with DeviceStatus := none, PhaseSeqDetection := none } =
      { d2 with DeviceStatus := none, PhaseSeqDetection := none }) :
    rescale d1 = rescale d2 ∧
      Unmarshal (.document (.object [("137", .number (.integer false 1)),
          ("138", .number (.integer false 2))])) =
        .ok { DeviceStatus := some 1, PhaseSeqDetection := some 2 } ∧
      iteration ⟨topic, .document (.object [("137", .number (.integer false 1)),
          ("138", .number (.integer false 2))])⟩ token =
        [.log .debug "Received message", .log .info "Publishing message",
          .publish "smacker/pc321" 0 false "\x7b\x7d"] ++ publishChecks token := by
  have key : ∀ d : Pc321State,
      rescale d = rescale { d with DeviceStatus := none, PhaseSeqDetection := none } :=
    fun _ => rfl
  exact ⟨by rw [key d1, key d2, h], rfl, rfl⟩

theorem status_registers_unmapped_witness :
    rescale { VoltageL1 := some 2300, DeviceStatus := some 1 } =
      rescale { VoltageL1 := some 2300, PhaseSeqDetection := some 7 } :=
  (status_registers_unmapped { VoltageL1 := some 2300, DeviceStatus := some 1 }
    { VoltageL1 := some 2300, PhaseSeqDetection := some 7 } "" ⟨true, false⟩ rfl).1

theorem publishChecks_asPublish (token : Token) :
    (publishChecks token).filterMap Action.asPublish = [] := by
  obtain ⟨c, f⟩ := token
  cases c <;> cases f <;> rfl

theorem publishConfigMetric_asPublish (metric payload : String) (token : Token) :
    (publishConfigMetric metric payload token).filterMap Action.asPublish =
      [("homeassistant/sensor/pc321/" ++ metric ++ "/config", 0, true,
        "\x7b\"device\": " ++ deviceJson ++ ", " ++ payload ++ "\x7d")] := by
  simp [publishConfigMetric, List.filterMap_cons, Action.asPublish, publishChecks_asPublish]

/-- C15: whatever the transport answers, `publishConfig` makes exactly eight publish calls, in
order for the metrics energy, energy_l1, energy_l2, energy_l3, power, power_l1, power_l2 and
power_l3, each on the topic `homeassistant/sensor/pc321/<metric>/config` with QoS 0 and the
retained flag set; it publishes nothing else. -/
theorem publishConfig_eight_retained (tokens : Nat → Token) :
    ((publishConfig tokens).filterMap Action.asPublish).map (fun c => (c.1, c.2.1, c.2.2.1)) =
      [("homeassistant/sensor/pc321/energy/config", 0, true),
       ("homeassistant/sensor/pc321/energy_l1/config", 0, true),
       ("homeassistant/sensor/pc321/energy_l2/config", 0, true),
       ("homeassistant/sensor/pc321/energy_l3/config", 0, true),
       ("homeassistant/sensor/pc321/power/config", 0, true),
       ("homeassistant/sensor/pc321/power_l1/config", 0, true),
       ("homeassistant/sensor/pc321/power_l2/config", 0, true),
       ("homeassistant/sensor/pc321/power_l3/config", 0, true)] := by
  simp only [publishConfig, List.filterMap_append, publishConfigMetric_asPublish]
  rfl

theorem iteration_asPublish (incoming : Message) (token : Token) :
    ∀ c ∈ (iteration incoming token).filterMap Action.asPublish,
      c.1 = "smacker/pc321" ∧ c.2.1 = 0 ∧ c.2.2.1 = false := by
  intro c hc
  unfold iteration at hc
  cases hu : Unmarshal incoming.message with
  | error e => simp [hu, Action.asPublish] at hc
  | ok data =>
    cases hm : Marshal (rescale data) with
    | error e => simp [hu, hm, Action.asPublish] at hc
    | ok text =>
      simp only [hu, hm, List.filterMap_cons, List.filterMap_append, Action.asPublish,
        publishChecks_asPublish, List.filterMap_nil, List.append_nil, List.mem_singleton,
        List.cons_append, List.nil_append] at hc
      subst hc
      exact ⟨rfl, rfl, rfl⟩

set_option maxRecDepth 8000 in
/-- C17: every discovery descriptor is consistent with the data path: the publish calls of
`publishConfig` are, in order, one per metric `m` of the eight discovery metrics, on the
config topic of `m`, with a payload whose state topic is `smacker/pc321`, whose value template
reads `value_json.m` and whose unique and object IDs are `pc321_m`; the main loop publishes
readings on `smacker/pc321` only; and each `m` is a canonical metric name that the rescale
step emits for a suitable reading. -/
theorem descriptors_consistent (tokens : Nat → Token) (incoming : Message) (token : Token) :
    List.Forall₂ (fun m c => c.1 = configTopic m ∧ descriptorConsistent m c.2.2.2 = true)
        discoveryMetrics ((publishConfig tokens).filterMap Action.asPublish) ∧
      (∀ c ∈ (iteration incoming token).filterMap Action.asPublish, c.1 = "smacker/pc321") ∧
      (∀ m ∈ discoveryMetrics, m ∈ canonicalNames) ∧
      ∃ data : Pc321State, ∀ m ∈ discoveryMetrics, m ∈ (rescale data).keys := by
  refine ⟨?_, fun c hc => (iteration_asPublish incoming token c hc).1, by decide,
    ⟨{ EnergyConsumptionL1 := some 0, EnergyConsumptionL2 := some 0,
       EnergyConsumptionL3 := some 0, TotalEnergyConsumption := some 0,
       ActivePowerL1 := some 0, ActivePowerL2 := some 0, ActivePowerL3 := some 0,
       TotalActivePower := some 0 }, by decide⟩⟩
  simp only [publishConfig, List.filterMap_append, publishConfigMetric_asPublish,
    discoveryMetrics, List.singleton_append]
  repeat' constructor

/-! ## Determinism of the serialized output -/

theorem char_eq_of_toNat_eq (a b : Char) (h : a.toNat = b.toNat) : a = b := by
  rw [← Char.ofNat_toNat a, ← Char.ofNat_toNat b, h]

theorem strLt_irrefl (a : List Char) : strLt a a = false := by
  induction a with
  | nil => rfl
  | cons c cs ih => simp [strLt, ih]

theorem strLt_trans (a : List Char) : ∀ b c : List Char,
    strLt a b = true → strLt b c = true → strLt a c = true := by
  induction a with
  | nil =>
    intro b c hab hbc
    cases b with
    | nil => simp [strLt] at hab
    | cons y ys =>
      cases c with
      | nil => simp [strLt] at hbc
      | cons z zs => rfl
  | cons x xs ih =>
    intro b c hab hbc
    cases b with
    | nil => simp [strLt] at hab
    | cons y ys =>
      cases c with
      | nil => simp [strLt] at hbc
      | cons z zs =>
        simp only [strLt, Bool.or_eq_true, decide_eq_true_eq, Bool.and_eq_true,
          beq_iff_eq] at hab hbc ⊢
        rcases hab with hab | ⟨rfl, hab⟩
        · rcases hbc with hbc | ⟨rfl, hbc⟩
          · exact Or.inl (lt_trans hab hbc)
          · exact Or.inl hab
        · rcases hbc with hbc | ⟨rfl, hbc⟩
          · exact Or.inl hbc
          · exact Or.inr ⟨rfl, ih _ _ hab hbc⟩

theorem strLt_asymm (a b : List Char) (h : strLt a b = true) : strLt b a = false := by
  cases hba : strLt b a with
  | false => rfl
  | true =>
    have := strLt_trans a b a h hba
    rw [strLt_irrefl] at this
    exact absurd this (by simp)

theorem strLt_connex (a : List Char) : ∀ b : List Char,
    a ≠ b → strLt a b = false → strLt b a = true := by
  induction a with
  | nil =>
    intro b hne hab
    cases b with
    | nil => exact absurd rfl hne
    | cons y ys => simp [strLt] at hab
  | cons x xs ih =>
    intro b hne hab
    cases b with
    | nil => rfl
    | cons y ys =>
      simp only [strLt, Bool.or_eq_false_iff, decide_eq_false_iff_not, Bool.and_eq_false_imp,
        beq_iff_eq] at hab
      simp only [strLt, Bool.or_eq_true, decide_eq_true_eq, Bool.and_eq_true, beq_iff_eq]
      obtain ⟨h1, h2⟩ := hab
      by_cases hxy : x = y
      · subst hxy
        refine Or.inr ⟨rfl, ih ys ?_ (h2 rfl)⟩
        intro hc
        exact hne (by rw [hc])
      · left
        rcases Nat.lt_trichotomy x.toNat y.toNat with h | h | h
        · exact absurd h h1
        · exact absurd (char_eq_of_toNat_eq x y h) hxy
        · exact h

theorem insertEntry_perm (e : String × RoundedFloat) (l : MetricMap) :
    (insertEntry e l).Perm (e :: l) := by
  induction l with
  | nil => exact List.Perm.refl _
  | cons f rest ih =>
    simp only [insertEntry]
    split
    · exact (List.Perm.cons f ih).trans (List.Perm.swap e f rest)
    · exact List.Perm.refl _

theorem sortEntries_perm (m : MetricMap) : (sortEntries m).Perm m := by
  induction m with
  | nil => exact List.Perm.refl _
  | cons e rest ih =>
    simp only [sortEntries]
    exact (insertEntry_perm e _).trans (List.Perm.cons e ih)

theorem insertEntry_sorted (e : String × RoundedFloat) (l : MetricMap)
    (hs : l.Pairwise (fun a b => strLt a.1.data b.1.data = true))
    (hne : ∀ f ∈ l, f.1 ≠ e.1) :
    (insertEntry e l).Pairwise (fun a b => strLt a.1.data b.1.data = true) := by
  induction l with
  | nil => simp [insertEntry]
  | cons f rest ih =>
    rw [List.pairwise_cons] at hs
    obtain ⟨hf, hrest⟩ := hs
    have hfe : f.1 ≠ e.1 := hne f (List.mem_cons_self _ _)
    have hfe' : f.1.data ≠ e.1.data := fun h => hfe (String.ext h)
    simp only [insertEntry]
    split
    · rename_i hlt
      rw [List.pairwise_cons]
      refine ⟨?_, ih hrest (fun g hg => hne g (List.mem_cons_of_mem _ hg))⟩
      intro g hg
      rcases (List.mem_cons.1 ((insertEntry_perm e rest).subset hg)) with rfl | hg
      · exact hlt
      · exact hf g hg
    · rename_i hlt
      have hef : strLt e.1.data f.1.data = true :=
        strLt_connex f.1.data e.1.data hfe' (by simpa using hlt)
      rw [List.pairwise_cons]
      refine ⟨?_, List.pairwise_cons.2 ⟨hf, hrest⟩⟩
      intro g hg
      rcases List.mem_cons.1 hg with rfl | hg
      · exact hef
      · exact strLt_trans _ _ _ hef (hf g hg)

theorem sortEntries_sorted (m : MetricMap) (hn : m.keys.Nodup) :
    (sortEntries m).Pairwise (fun a b => strLt a.1.data b.1.data = true) := by
  induction m with
  | nil => simp [sortEntries]
  | cons e rest ih =>
    simp only [MetricMap.keys, List.map_cons, List.nodup_cons] at hn
    obtain ⟨he, hrest⟩ := hn
    simp only [sortEntries]
    refine insertEntry_sorted e _ (ih hrest) ?_
    intro f hf hfe
    apply he
    rw [← hfe]
    exact List.mem_map_of_mem _ ((sortEntries_perm rest).subset hf)

theorem sortEntries_eq_of_perm (m1 m2 : MetricMap) (hp : m1.Perm m2) (hn : m1.keys.Nodup) :
    sortEntries m1 = sortEntries m2 := by
  have hn2 : m2.keys.Nodup := (List.Perm.map Prod.fst hp).nodup_iff.1 hn
  have h1 := sortEntries_sorted m1 hn
  have h2 := sortEntries_sorted m2 hn2
  have hperm : (sortEntries m1).Perm (sortEntries m2) :=
    ((sortEntries_perm m1).trans hp).trans (sortEntries_perm m2).symm
  haveI : IsAntisymm (String × RoundedFloat) (fun a b => strLt a.1.data b.1.data = true) :=
    ⟨fun a b hab hba => by
      rw [strLt_asymm _ _ hab] at hba
      exact absurd hba (by simp)⟩
  exact List.eq_of_perm_of_sorted hperm h1 h2

theorem MetricMap.mem_keys_set (m : MetricMap) (k : String) (x : RoundedFloat) (j : String) :
    j ∈ (m.set k x).keys ↔ j = k ∨ j ∈ m.keys := by
  rw [MetricMap.mem_keys_iff, MetricMap.mem_keys_iff, MetricMap.get_set]
  by_cases h : k = j
  · simp [h]
  · have h' : ¬ j = k := fun hc => h hc.symm
    simp [h, h']

theorem MetricMap.set_keys_nodup (m : MetricMap) (k : String) (x : RoundedFloat)
    (h : m.keys.Nodup) : (m.set k x).keys.Nodup := by
  induction m with
  | nil => simp [MetricMap.set, MetricMap.keys]
  | cons e rest ih =>
    obtain ⟨a, y⟩ := e
    simp only [MetricMap.keys, List.map_cons, List.nodup_cons] at h
    obtain ⟨ha, hrest⟩ := h
    by_cases hak : a = k
    · simp only [MetricMap.set, hak, if_true, MetricMap.keys, List.map_cons, List.nodup_cons]
      exact ⟨hak ▸ ha, hrest⟩
    · simp only [MetricMap.set, hak, if_false, MetricMap.keys, List.map_cons, List.nodup_cons]
      refine ⟨?_, ih hrest⟩
      intro hmem
      rcases (MetricMap.mem_keys_set rest k x a).1 hmem with h1 | h1
      · exact hak h1
      · exact ha h1

theorem setIfPresent_keys_nodup {α : Type} (m : MetricMap) (k : String) (o : Option α)
    (f : α → RoundedFloat) (h : m.keys.Nodup) : (setIfPresent m k o f).keys.Nodup := by
  cases o with
  | none => exact h
  | some x => exact MetricMap.set_keys_nodup m k (f x) h

theorem rescale_keys_nodup (data : Pc321State) : (rescale data).keys.Nodup := by
  unfold rescale
  repeat' apply setIfPresent_keys_nodup
  exact List.nodup_nil

theorem iteration_publishes (topic : String) (p : Payload) (token : Token) :
    (iteration ⟨topic, p⟩ token).filterMap Action.asPublish =
      match Unmarshal p with
      | .error _ => []
      | .ok data =>
        match Marshal (rescale data) with
        | .error _ => []
        | .ok text => [("smacker/pc321", 0, false, text)] := by
  unfold iteration
  cases hu : Unmarshal p with
  | error e => simp [hu, Action.asPublish]
  | ok data =>
    cases hm : Marshal (rescale data) with
    | error e => simp [hu, hm, Action.asPublish]
    | ok text =>
      simp [hu, hm, List.filterMap_cons, List.filterMap_append, Action.asPublish,
        publishChecks_asPublish]

/-- C13: the serialized output is a function of the payload alone: when the same payload is
processed twice, under any topics and transport answers and with any messages before,
between and after, the loop makes its passes one after the other and the two passes publish
the same text; the text does not depend on the order in which the map holds its entries,
since `json.Marshal` emits them sorted by key. -/
theorem serialization_deterministic (pre mid rest : List (Message × Token)) (p : Payload)
    (topic1 topic2 : String) (token1 token2 : Token) :
    mainLoop (pre ++ (⟨topic1, p⟩, token1) :: (mid ++ (⟨topic2, p⟩, token2) :: rest)) =
        mainLoop pre ++ (iteration ⟨topic1, p⟩ token1 ++
          (mainLoop mid ++ (iteration ⟨topic2, p⟩ token2 ++ mainLoop rest))) ∧
      (iteration ⟨topic1, p⟩ token1).filterMap Action.asPublish =
        (iteration ⟨topic2, p⟩ token2).filterMap Action.asPublish ∧
      (∀ data : Pc321State, ∀ m : MetricMap, (rescale data).Perm m →
        Marshal m = Marshal (rescale data)) ∧
      ∀ m1 m2 : MetricMap, m1.Perm m2 → m1.keys.Nodup → Marshal m1 = Marshal m2 := by
  have hperm : ∀ m1 m2 : MetricMap, m1.Perm m2 → m1.keys.Nodup → Marshal m1 = Marshal m2 := by
    intro m1 m2 hp hn
    simp only [Marshal, sortEntries_eq_of_perm m1 m2 hp hn]
  refine ⟨?_, ?_, ?_, hperm⟩
  · simp only [mainLoop_append, mainLoop]
  · rw [iteration_publishes, iteration_publishes]
  · intro data m hp
    exact (hperm _ _ hp (rescale_keys_nodup data)).symm

/-! ## Which members populate a field -/

theorem storeField_snd {α : Type} (zero : α) (dec : JNumber → Option α) (cur : Option α)
    (v : JValue) :
    (storeField zero dec cur v).2 =
      !(match v with
        | .null => true
        | .number n => (dec n).isSome
        | _ => false) := by
  cases v with
  | number n => cases h : dec n <;> simp [storeField, h]
  | _ => simp [storeField]

theorem storeField_fst {α : Type} (zero : α) (dec : JNumber → Option α) (cur : Option α)
    (v : JValue) (h : (storeField zero dec cur v).2 = false) :
    (storeField zero dec cur v).1 =
      match v with
      | .number n => dec n
      | _ => none := by
  cases v with
  | number n => cases hd : dec n <;> simp [storeField, hd] at h ⊢
  | null => simp [storeField]
  | _ => simp [storeField] at h

theorem Decoder.saveError_none (d : Decoder) (failed : Bool) (v : JValue) (key : String) :
    ((Decoder.saveError d failed v key).savedError = none ↔
      d.savedError = none ∧ failed = false) ∧
    (Decoder.saveError d failed v key).data = d.data := by
  unfold Decoder.saveError
  cases failed <;> cases h : d.savedError <;> simp [h]

theorem Decoder.member_101 (d : Decoder) (v : JValue) :
    ((d.member "101" v).savedError = none ↔
        d.savedError = none ∧ Width.uint32.accepts v = true) ∧
      (Width.uint32.accepts v = true → ∀ key, (d.member "101" v).data.field key =
        if key = "101" then Width.uint32.stored v else d.data.field key) := by
  have h2 := storeField_snd 0 (decodeUint 32) d.data.VoltageL1 v
  have hacc : (storeField 0 (decodeUint 32) d.data.VoltageL1 v).2 = false ↔
      Width.uint32.accepts v = true := by
    rw [h2]
    cases v <;> simp [Width.accepts, Width.decode]
  obtain ⟨hs, hdata⟩ := Decoder.saveError_none
    { d with data := { d.data with
        VoltageL1 := (storeField 0 (decodeUint 32) d.data.VoltageL1 v).1 } }
    (storeField 0 (decodeUint 32) d.data.VoltageL1 v).2 v "101"
  refine ⟨?_, ?_⟩
  · simp only [Decoder.member]
    rw [hs, hacc]
  · intro ha key
    have h1 := storeField_fst 0 (decodeUint 32) d.data.VoltageL1 v (hacc.2 ha)
    simp only [Decoder.member]
    rw [hdata]
    by_cases hk : key = "101"
    · subst hk
      simp only [Pc321State.field, h1, if_true]
      cases v <;> simp [Width.stored, Width.decode]
    · rw [if_neg hk]
      unfold Pc321State.field
      split <;> first | rfl | exact absurd rfl hk

theorem Decoder.member_102 (d : Decoder) (v : JValue) :
    ((d.member "102" v).savedError = none ↔
        d.savedError = none ∧ Width.uint32.accepts v = true) ∧
      (Width.uint32.accepts v = true → ∀ key, (d.member "102" v).data.field key =
        if key = "102" then Width.uint32.stored v else d.data.field key) := by
  have h2 := storeField_snd 0 (decodeUint 32) d.data.CurrentL1 v
  have hacc : (storeField 0 (decodeUint 32) d.data.CurrentL1 v).2 = false ↔
      Width.uint32.accepts v = true := by
    rw [h2]
    cases v <;> simp [Width.accepts, Width.decode]
  obtain ⟨hs, hdata⟩ := Decoder.saveError_none
    { d with data := { d.data with
        CurrentL1 := (storeField 0 (decodeUint 32) d.data.CurrentL1 v).1 } }
    (storeField 0 (decodeUint 32) d.data.CurrentL1 v).2 v "102"
  refine ⟨?_, ?_⟩
  · simp only [Decoder.member]
    rw [hs, hacc]
  · intro ha key
    have h1 := storeField_fst 0 (decodeUint 32) d.data.CurrentL1 v (hacc.2 ha)
    simp only [Decoder.member]
    rw [hdata]
    by_cases hk : key = "102"
    · subst hk
      simp only [Pc321State.field, h1, if_true]
      cases v <;> simp [Width.stored, Width.decode]
    · rw [if_neg hk]
      unfold Pc321State.field
      split <;> first | rfl | exact absurd rfl hk

theorem Decoder.member_103 (d : Decoder) (v : JValue) :
    ((d.member "103" v).savedError = none ↔
        d.savedError = none ∧ Width.int32.accepts v = true) ∧
      (Width.int32.accepts v = true → ∀ key, (d.member "103" v).data.field key =
        if key = "103" then Width.int32.stored v else d.data.field key) := by
  have h2 := storeField_snd 0 (decodeInt 32) d.data.ActivePowerL1 v
  have hacc : (storeField 0 (decodeInt 32) d.data.ActivePowerL1 v).2 = false ↔
      Width.int32.accepts v = true := by
    rw [h2]
    cases v <;> simp [Width.accepts, Width.decode]
  obtain ⟨hs, hdata⟩ := Decoder.saveError_none
    { d with data := { d.data with
        ActivePowerL1 := (storeField 0 (decodeInt 32) d.data.ActivePowerL1 v).1 } }
    (storeField 0 (decodeInt 32) d.data.ActivePowerL1 v).2 v "103"
  refine ⟨?_, ?_⟩
  · simp only [Decoder.member]
    rw [hs, hacc]
  · intro ha key
    have h1 := storeField_fst 0 (decodeInt 32) d.data.ActivePowerL1 v (hacc.2 ha)
    simp only [Decoder.member]
    rw [hdata]
    by_cases hk : key = "103"
    · subst hk
      simp only [Pc321State.field, h1, if_true]
      cases v <;> simp [Width.stored, Width.decode]
    · rw [if_neg hk]
      unfold Pc321State.field
      split <;> first | rfl | exact absurd rfl hk

theorem Decoder.member_104 (d : Decoder) (v : JValue) :
    ((d.member "104" v).savedError = none ↔
        d.savedError = none ∧ Width.uint32.accepts v = true) ∧
      (Width.uint32.accepts v = true → ∀ key, (d.member "104" v).data.field key =
        if key = "104" then Width.uint32.stored v else d.data.field key) := by
  have h2 := storeField_snd 0 (decodeUint 32) d.data.PowerFactorL1 v
  have hacc : (storeField 0 (decodeUint 32) d.data.PowerFactorL1 v).2 = false ↔
      Width.uint32.accepts v = true := by
    rw [h2]
    cases v <;> simp [Width.accepts, Width.decode]
  obtain ⟨hs, hdata⟩ := Decoder.saveError_none
    { d with data := { d.data with
        PowerFactorL1 := (storeField 0 (decodeUint 32) d.data.PowerFactorL1 v).1 } }
    (storeField 0 (decodeUint 32) d.data.PowerFactorL1 v).2 v "104"
  refine ⟨?_, ?_⟩
  · simp only [Decoder.member]
    rw [hs, hacc]
  · intro ha key
    have h1 := storeField_fst 0 (decodeUint 32) d.data.PowerFactorL1 v (hacc.2 ha)
    simp only [Decoder.member]
    rw [hdata]
    by_cases hk : key = "104"
    · subst hk
      simp only [Pc321State.field, h1, if_true]
      cases v <;> simp [Width.stored, Width.decode]
    · rw [if_neg hk]
      unfold Pc321State.field
      split <;> first | rfl | exact absurd rfl hk

theorem Decoder.member_106 (d : Decoder) (v : JValue) :
    ((d.member "106" v).savedError = none ↔
        d.savedError = none ∧ Width.uint32.accepts v = true) ∧
      (Width.uint32.accepts v = true → ∀ key, (d.member "106" v).data.field key =
        if key = "106" then Width.uint32.stored v else d.data.field key) := by
  have h2 := storeField_snd 0 (decodeUint 32) d.data.EnergyConsumptionL1 v
  have hacc : (storeField 0 (decodeUint 32) d.data.EnergyConsumptionL1 v).2 = false ↔
      Width.uint32.accepts v = true := by
    rw [h2]
    cases v <;> simp [Width.accepts, Width.decode]
  obtain ⟨hs, hdata⟩ := Decoder.saveError_none
    { d with data := { d.data with
        EnergyConsumptionL1 := (storeField 0 (decodeUint 32) d.data.EnergyConsumptionL1 v).1 } }
    (storeField 0 (decodeUint 32) d.data.EnergyConsumptionL1 v).2 v "106"
  refine ⟨?_, ?_⟩
  · simp only [Decoder.member]
    rw [hs, hacc]
  · intro ha key
    have h1 := storeField_fst 0 (decodeUint 32) d.data.EnergyConsumptionL1 v (hacc.2 ha)
    simp only [Decoder.member]
    rw [hdata]
    by_cases hk : key = "106"
    · subst hk
      simp only [Pc321State.field, h1, if_true]
      cases v <;> simp [Width.stored, Width.decode]
    · rw [if_neg hk]
      unfold Pc321State.field
      split <;> first | rfl | exact absurd rfl hk

theorem Decoder.member_111 (d : Decoder) (v : JValue) :
    ((d.member "111" v).savedError = none ↔
        d.savedError = none ∧ Width.uint32.accepts v = true) ∧
      (Width.uint32.accepts v = true → ∀ key, (d.member "111" v).data.field key =
        if key = "111" then Width.uint32.stored v else d.data.field key) := by
  have h2 := storeField_snd 0 (decodeUint 32) d.data.VoltageL2 v
  have hacc : (storeField 0 (decodeUint 32) d.data.VoltageL2 v).2 = false ↔
      Width.uint32.accepts v = true := by
    rw [h2]
    cases v <;> simp [Width.accepts, Width.decode]
  obtain ⟨hs, hdata⟩ := Decoder.saveError_none
    { d with data := { d.data with
        VoltageL2 := (storeField 0 (decodeUint 32) d.data.VoltageL2 v).1 } }
    (storeField 0 (decodeUint 32) d.data.VoltageL2 v).2 v "111"
  refine ⟨?_, ?_⟩
  · simp only [Decoder.member]
    rw [hs, hacc]
  · intro ha key
    have h1 := storeField_fst 0 (decodeUint 32) d.data.VoltageL2 v (hacc.2 ha)
    simp only [Decoder.member]
    rw [hdata]
    by_cases hk : key = "111"
    · subst hk
      simp only [Pc321State.field, h1, if_true]
      cases v <;> simp [Width.stored, Width.decode]
    · rw [if_neg hk]
      unfold Pc321State.field
      split <;> first | rfl | exact absurd rfl hk

theorem Decoder.member_112 (d : Decoder) (v : JValue) :
    ((d.member "112" v).savedError = none ↔
        d.savedError = none ∧ Width.uint32.accepts v = true) ∧
      (Width.uint32.accepts v = true → ∀ key, (d.member "112" v).data.field key =
        if key = "112" then Width.uint32.stored v else d.data.field key) := by
  have h2 := storeField_snd 0 (decodeUint 32) d.data.CurrentL2 v
  have hacc : (storeField 0 (decodeUint 32) d.data.CurrentL2 v).2 = false ↔
      Width.uint32.accepts v = true := by
    rw [h2]
    cases v <;> simp [Width.accepts, Width.decode]
  obtain ⟨hs, hdata⟩ := Decoder.saveError_none
    { d with data := { d.data with
        CurrentL2 := (storeField 0 (decodeUint 32) d.data.CurrentL2 v).1 } }
    (storeField 0 (decodeUint 32) d.data.CurrentL2 v).2 v "112"
  refine ⟨?_, ?_⟩
  · simp only [Decoder.member]
    rw [hs, hacc]
  · intro ha key
    have h1 := storeField_fst 0 (decodeUint 32) d.data.CurrentL2 v (hacc.2 ha)
    simp only [Decoder.member]
    rw [hdata]
    by_cases hk : key = "112"
    · subst hk
      simp only [Pc321State.field, h1, if_true]
      cases v <;> simp [Width.stored, Width.decode]
    · rw [if_neg hk]
      unfold Pc321State.field
      split <;> first | rfl | exact absurd rfl hk

theorem Decoder.member_113 (d : Decoder) (v : JValue) :
    ((d.member "113" v).savedError = none ↔
        d.savedError = none ∧ Width.int32.accepts v = true) ∧
      (Width.int32.accepts v = true → ∀ key, (d.member "113" v).data.field key =
        if key = "113" then Width.int32.stored v else d.data.field key) := by
  have h2 := storeField_snd 0 (decodeInt 32) d.data.ActivePowerL2 v
  have hacc : (storeField 0 (decodeInt 32) d.data.ActivePowerL2 v).2 = false ↔
      Width.int32.accepts v = true := by
    rw [h2]
    cases v <;> simp [Width.accepts, Width.decode]
  obtain ⟨hs, hdata⟩ := Decoder.saveError_none
    { d with data := { d.data with
        ActivePowerL2 := (storeField 0 (decodeInt 32) d.data.ActivePowerL2 v).1 } }
    (storeField 0 (decodeInt 32) d.data.ActivePowerL2 v).2 v "113"
  refine ⟨?_, ?_⟩
  · simp only [Decoder.member]
    rw [hs, hacc]
  · intro ha key
    have h1 := storeField_fst 0 (decodeInt 32) d.data.ActivePowerL2 v (hacc.2 ha)
    simp only [Decoder.member]
    rw [hdata]
    by_cases hk : key = "113"
    · subst hk
      simp only [Pc321State.field, h1, if_true]
      cases v <;> simp [Width.stored, Width.decode]
    · rw [if_neg hk]
      unfold Pc321State.field
      split <;> first | rfl | exact absurd rfl hk

theorem Decoder.member_114 (d : Decoder) (v : JValue) :
    ((d.member "114" v).savedError = none ↔
        d.savedError = none ∧ Width.uint32.accepts v = true) ∧
      (Width.uint32.accepts v = true → ∀ key, (d.member "114" v).data.field key =
        if key = "114" then Width.uint32.stored v else d.data.field key) := by
  have h2 := storeField_snd 0 (decodeUint 32) d.data.PowerFactorL2 v
  have hacc : (storeField 0 (decodeUint 32) d.data.PowerFactorL2 v).2 = false ↔
      Width.uint32.accepts v = true := by
    rw [h2]
    cases v <;> simp [Width.accepts, Width.decode]
  obtain ⟨hs, hdata⟩ := Decoder.saveError_none
    { d with data := { d.data with
        PowerFactorL2 := (storeField 0 (decodeUint 32) d.data.PowerFactorL2 v).1 } }
    (storeField 0 (decodeUint 32) d.data.PowerFactorL2 v).2 v "114"
  refine ⟨?_, ?_⟩
  · simp only [Decoder.member]
    rw [hs, hacc]
  · intro ha key
    have h1 := storeField_fst 0 (decodeUint 32) d.data.PowerFactorL2 v (hacc.2 ha)
    simp only [Decoder.member]
    rw [hdata]
    by_cases hk : key = "114"
    · subst hk
      simp only [Pc321State.field, h1, if_true]
      cases v <;> simp [Width.stored, Width.decode]
    · rw [if_neg hk]
      unfold Pc321State.field
      split <;> first | rfl | exact absurd rfl hk

theorem Decoder.member_116 (d : Decoder) (v : JValue) :
    ((d.member "116" v).savedError = none ↔
        d.savedError = none ∧ Width.uint32.accepts v = true) ∧
      (Width.uint32.accepts v = true → ∀ key, (d.member "116" v).data.field key =
        if key = "116" then Width.uint32.stored v else d.data.field key) := by
  have h2 := storeField_snd 0 (decodeUint 32) d.data.EnergyConsumptionL2 v
  have hacc : (storeField 0 (decodeUint 32) d.data.EnergyConsumptionL2 v).2 = false ↔
      Width.uint32.accepts v = true := by
    rw [h2]
    cases v <;> simp [Width.accepts, Width.decode]
  obtain ⟨hs, hdata⟩ := Decoder.saveError_none
    { d with data := { d.data with
        EnergyConsumptionL2 := (storeField 0 (decodeUint 32) d.data.EnergyConsumptionL2 v).1 } }
    (storeField 0 (decodeUint 32) d.data.EnergyConsumptionL2 v).2 v "116"
  refine ⟨?_, ?_⟩
  · simp only [Decoder.member]
    rw [hs, hacc]
  · intro ha key
    have h1 := storeField_fst 0 (decodeUint 32) d.data.EnergyConsumptionL2 v (hacc.2 ha)
    simp only [Decoder.member]
    rw [hdata]
    by_cases hk : key = "116"
    · subst hk
      simp only [Pc321State.field, h1, if_true]
      cases v <;> simp [Width.stored, Width.decode]
    · rw [if_neg hk]
      unfold Pc321State.field
      split <;> first | rfl | exact absurd rfl hk

theorem Decoder.member_121 (d : Decoder) (v : JValue) :
    ((d.member "121" v).savedError = none ↔
        d.savedError = none ∧ Width.uint32.accepts v = true) ∧
      (Width.uint32.accepts v = true → ∀ key, (d.member "121" v).data.field key =
        if key = "121" then Width.uint32.stored v else d.data.field key) := by
  have h2 := storeField_snd 0 (decodeUint 32) d.data.VoltageL3 v
  have hacc : (storeField 0 (decodeUint 32) d.data.VoltageL3 v).2 = false ↔
      Width.uint32.accepts v = true := by
    rw [h2]
    cases v <;> simp [Width.accepts, Width.decode]
  obtain ⟨hs, hdata⟩ := Decoder.saveError_none
    { d with data := { d.data with
        VoltageL3 := (storeField 0 (decodeUint 32) d.data.VoltageL3 v).1 } }
    (storeField 0 (decodeUint 32) d.data.VoltageL3 v).2 v "121"
  refine ⟨?_, ?_⟩
  · simp only [Decoder.member]
    rw [hs, hacc]
  · intro ha key
    have h1 := storeField_fst 0 (decodeUint 32) d.data.VoltageL3 v (hacc.2 ha)
    simp only [Decoder.member]
    rw [hdata]
    by_cases hk : key = "121"
    · subst hk
      simp only [Pc321State.field, h1, if_true]
      cases v <;> simp [Width.stored, Width.decode]
    · rw [if_neg hk]
      unfold Pc321State.field
      split <;> first | rfl | exact absurd rfl hk

theorem Decoder.member_122 (d : Decoder) (v : JValue) :
    ((d.member "122" v).savedError = none ↔
        d.savedError = none ∧ Width.uint32.accepts v = true) ∧
      (Width.uint32.accepts v = true → ∀ key, (d.member "122" v).data.field key =
        if key = "122" then Width.uint32.stored v else d.data.field key) := by
  have h2 := storeField_snd 0 (decodeUint 32) d.data.CurrentL3 v
  have hacc : (storeField 0 (decodeUint 32) d.data.CurrentL3 v).2 = false ↔
      Width.uint32.accepts v = true := by
    rw [h2]
    cases v <;> simp [Width.accepts, Width.decode]
  obtain ⟨hs, hdata⟩ := Decoder.saveError_none
    { d with data := { d.data with
        CurrentL3 := (storeField 0 (decodeUint 32) d.data.CurrentL3 v).1 } }
    (storeField 0 (decodeUint 32) d.data.CurrentL3 v).2 v "122"
  refine ⟨?_, ?_⟩
  · simp only [Decoder.member]
    rw [hs, hacc]
  · intro ha key
    have h1 := storeField_fst 0 (decodeUint 32) d.data.CurrentL3 v (hacc.2 ha)
    simp only [Decoder.member]
    rw [hdata]
    by_cases hk : key = "122"
    · subst hk
      simp only [Pc321State.field, h1, if_true]
      cases v <;> simp [Width.stored, Width.decode]
    · rw [if_neg hk]
      unfold Pc321State.field
      split <;> first | rfl | exact absurd rfl hk

theorem Decoder.member_123 (d : Decoder) (v : JValue) :
    ((d.member "123" v).savedError = none ↔
        d.savedError = none ∧ Width.int32.accepts v = true) ∧
      (Width.int32.accepts v = true → ∀ key, (d.member "123" v).data.field key =
        if key = "123" then Width.int32.stored v else d.data.field key) := by
  have h2 := storeField_snd 0 (decodeInt 32) d.data.ActivePowerL3 v
  have hacc : (storeField 0 (decodeInt 32) d.data.ActivePowerL3 v).2 = false ↔
      Width.int32.accepts v = true := by
    rw [h2]
    cases v <;> simp [Width.accepts, Width.decode]
  obtain ⟨hs, hdata⟩ := Decoder.saveError_none
    { d with data := { d.data with
        ActivePowerL3 := (storeField 0 (decodeInt 32) d.data.ActivePowerL3 v).1 } }
    (storeField 0 (decodeInt 32) d.data.ActivePowerL3 v).2 v "123"
  refine ⟨?_, ?_⟩
  · simp only [Decoder.member]
    rw [hs, hacc]
  · intro ha key
    have h1 := storeField_fst 0 (decodeInt 32) d.data.ActivePowerL3 v (hacc.2 ha)
    simp only [Decoder.member]
    rw [hdata]
    by_cases hk : key = "123"
    · subst hk
      simp only [Pc321State.field, h1, if_true]
      cases v <;> simp [Width.stored, Width.decode]
    · rw [if_neg hk]
      unfold Pc321State.field
      split <;> first | rfl | exact absurd rfl hk

theorem Decoder.member_124 (d : Decoder) (v : JValue) :
    ((d.member "124" v).savedError = none ↔
        d.savedError = none ∧ Width.uint32.accepts v = true) ∧
      (Width.uint32.accepts v = true → ∀ key, (d.member "124" v).data.field key =
        if key = "124" then Width.uint32.stored v else d.data.field key) := by
  have h2 := storeField_snd 0 (decodeUint 32) d.data.PowerFactorL3 v
  have hacc : (storeField 0 (decodeUint 32) d.data.PowerFactorL3 v).2 = false ↔
      Width.uint32.accepts v = true := by
    rw [h2]
    cases v <;> simp [Width.accepts, Width.decode]
  obtain ⟨hs, hdata⟩ := Decoder.saveError_none
    { d with data := { d.data with
        PowerFactorL3 := (storeField 0 (decodeUint 32) d.data.PowerFactorL3 v).1 } }
    (storeField 0 (decodeUint 32) d.data.PowerFactorL3 v).2 v "124"
  refine ⟨?_, ?_⟩
  · simp only [Decoder.member]
    rw [hs, hacc]
  · intro ha key
    have h1 := storeField_fst 0 (decodeUint 32) d.data.PowerFactorL3 v (hacc.2 ha)
    simp only [Decoder.member]
    rw [hdata]
    by_cases hk : key = "124"
    · subst hk
      simp only [Pc321State.field, h1, if_true]
      cases v <;> simp [Width.stored, Width.decode]
    · rw [if_neg hk]
      unfold Pc321State.field
      split <;> first | rfl | exact absurd rfl hk

theorem Decoder.member_126 (d : Decoder) (v : JValue) :
    ((d.member "126" v).savedError = none ↔
        d.savedError = none ∧ Width.uint32.accepts v = true) ∧
      (Width.uint32.accepts v = true → ∀ key, (d.member "126" v).data.field key =
        if key = "126" then Width.uint32.stored v else d.data.field key) := by
  have h2 := storeField_snd 0 (decodeUint 32) d.data.EnergyConsumptionL3 v
  have hacc : (storeField 0 (decodeUint 32) d.data.EnergyConsumptionL3 v).2 = false ↔
      Width.uint32.accepts v = true := by
    rw [h2]
    cases v <;> simp [Width.accepts, Width.decode]
  obtain ⟨hs, hdata⟩ := Decoder.saveError_none
    { d with data := { d.data with
        EnergyConsumptionL3 := (storeField 0 (decodeUint 32) d.data.EnergyConsumptionL3 v).1 } }
    (storeField 0 (decodeUint 32) d.data.EnergyConsumptionL3 v).2 v "126"
  refine ⟨?_, ?_⟩
  · simp only [Decoder.member]
    rw [hs, hacc]
  · intro ha key
    have h1 := storeField_fst 0 (decodeUint 32) d.data.EnergyConsumptionL3 v (hacc.2 ha)
    simp only [Decoder.member]
    rw [hdata]
    by_cases hk : key = "126"
    · subst hk
      simp only [Pc321State.field, h1, if_true]
      cases v <;> simp [Width.stored, Width.decode]
    · rw [if_neg hk]
      unfold Pc321State.field
      split <;> first | rfl | exact absurd rfl hk

theorem Decoder.member_131 (d : Decoder) (v : JValue) :
    ((d.member "131" v).savedError = none ↔
        d.savedError = none ∧ Width.uint32.accepts v = true) ∧
      (Width.uint32.accepts v = true → ∀ key, (d.member "131" v).data.field key =
        if key = "131" then Width.uint32.stored v else d.data.field key) := by
  have h2 := storeField_snd 0 (decodeUint 32) d.data.TotalEnergyConsumption v
  have hacc : (storeField 0 (decodeUint 32) d.data.TotalEnergyConsumption v).2 = false ↔
      Width.uint32.accepts v = true := by
    rw [h2]
    cases v <;> simp [Width.accepts, Width.decode]
  obtain ⟨hs, hdata⟩ := Decoder.saveError_none
    { d with data := { d.data with
        TotalEnergyConsumption := (storeField 0 (decodeUint 32) d.data.TotalEnergyConsumption v).1 } }
    (storeField 0 (decodeUint 32) d.data.TotalEnergyConsumption v).2 v "131"
  refine ⟨?_, ?_⟩
  · simp only [Decoder.member]
    rw [hs, hacc]
  · intro ha key
    have h1 := storeField_fst 0 (decodeUint 32) d.data.TotalEnergyConsumption v (hacc.2 ha)
    simp only [Decoder.member]
    rw [hdata]
    by_cases hk : key = "131"
    · subst hk
      simp only [Pc321State.field, h1, if_true]
      cases v <;> simp [Width.stored, Width.decode]
    · rw [if_neg hk]
      unfold Pc321State.field
      split <;> first | rfl | exact absurd rfl hk

theorem Decoder.member_132 (d : Decoder) (v : JValue) :
    ((d.member "132" v).savedError = none ↔
        d.savedError = none ∧ Width.uint32.accepts v = true) ∧
      (Width.uint32.accepts v = true → ∀ key, (d.member "132" v).data.field key =
        if key = "132" then Width.uint32.stored v else d.data.field key) := by
  have h2 := storeField_snd 0 (decodeUint 32) d.data.TotalCurrent v
  have hacc : (storeField 0 (decodeUint 32) d.data.TotalCurrent v).2 = false ↔
      Width.uint32.accepts v = true := by
    rw [h2]
    cases v <;> simp [Width.accepts, Width.decode]
  obtain ⟨hs, hdata⟩ := Decoder.saveError_none
    { d with data := { d.data with
        TotalCurrent := (storeField 0 (decodeUint 32) d.data.TotalCurrent v).1 } }
    (storeField 0 (decodeUint 32) d.data.TotalCurrent v).2 v "132"
  refine ⟨?_, ?_⟩
  · simp only [Decoder.member]
    rw [hs, hacc]
  · intro ha key
    have h1 := storeField_fst 0 (decodeUint 32) d.data.TotalCurrent v (hacc.2 ha)
    simp only [Decoder.member]
    rw [hdata]
    by_cases hk : key = "132"
    · subst hk
      simp only [Pc321State.field, h1, if_true]
      cases v <;> simp [Width.stored, Width.decode]
    · rw [if_neg hk]
      unfold Pc321State.field
      split <;> first | rfl | exact absurd rfl hk

theorem Decoder.member_133 (d : Decoder) (v : JValue) :
    ((d.member "133" v).savedError = none ↔
        d.savedError = none ∧ Width.int32.accepts v = true) ∧
      (Width.int32.accepts v = true → ∀ key, (d.member "133" v).data.field key =
        if key = "133" then Width.int32.stored v else d.data.field key) := by
  have h2 := storeField_snd 0 (decodeInt 32) d.data.TotalActivePower v
  have hacc : (storeField 0 (decodeInt 32) d.data.TotalActivePower v).2 = false ↔
      Width.int32.accepts v = true := by
    rw [h2]
    cases v <;> simp [Width.accepts, Width.decode]
  obtain ⟨hs, hdata⟩ := Decoder.saveError_none
    { d with data := { d.data with
        TotalActivePower := (storeField 0 (decodeInt 32) d.data.TotalActivePower v).1 } }
    (storeField 0 (decodeInt 32) d.data.TotalActivePower v).2 v "133"
  refine ⟨?_, ?_⟩
  · simp only [Decoder.member]
    rw [hs, hacc]
  · intro ha key
    have h1 := storeField_fst 0 (decodeInt 32) d.data.TotalActivePower v (hacc.2 ha)
    simp only [Decoder.member]
    rw [hdata]
    by_cases hk : key = "133"
    · subst hk
      simp only [Pc321State.field, h1, if_true]
      cases v <;> simp [Width.stored, Width.decode]
    · rw [if_neg hk]
      unfold Pc321State.field
      split <;> first | rfl | exact absurd rfl hk

theorem Decoder.member_135 (d : Decoder) (v : JValue) :
    ((d.member "135" v).savedError = none ↔
        d.savedError = none ∧ Width.uint32.accepts v = true) ∧
      (Width.uint32.accepts v = true → ∀ key, (d.member "135" v).data.field key =
        if key = "135" then Width.uint32.stored v else d.data.field key) := by
  have h2 := storeField_snd 0 (decodeUint 32) d.data.Frequency v
  have hacc : (storeField 0 (decodeUint 32) d.data.Frequency v).2 = false ↔
      Width.uint32.accepts v = true := by
    rw [h2]
    cases v <;> simp [Width.accepts, Width.decode]
  obtain ⟨hs, hdata⟩ := Decoder.saveError_none
    { d with data := { d.data with
        Frequency := (storeField 0 (decodeUint 32) d.data.Frequency v).1 } }
    (storeField 0 (decodeUint 32) d.data.Frequency v).2 v "135"
  refine ⟨?_, ?_⟩
  · simp only [Decoder.member]
    rw [hs, hacc]
  · intro ha key
    have h1 := storeField_fst 0 (decodeUint 32) d.data.Frequency v (hacc.2 ha)
    simp only [Decoder.member]
    rw [hdata]
    by_cases hk : key = "135"
    · subst hk
      simp only [Pc321State.field, h1, if_true]
      cases v <;> simp [Width.stored, Width.decode]
    · rw [if_neg hk]
      unfold Pc321State.field
      split <;> first | rfl | exact absurd rfl hk

theorem Decoder.member_136 (d : Decoder) (v : JValue) :
    ((d.member "136" v).savedError = none ↔
        d.savedError = none ∧ Width.uint32.accepts v = true) ∧
      (Width.uint32.accepts v = true → ∀ key, (d.member "136" v).data.field key =
        if key = "136" then Width.uint32.stored v else d.data.field key) := by
  have h2 := storeField_snd 0 (decodeUint 32) d.data.Temperature v
  have hacc : (storeField 0 (decodeUint 32) d.data.Temperature v).2 = false ↔
      Width.uint32.accepts v = true := by
    rw [h2]
    cases v <;> simp [Width.accepts, Width.decode]
  obtain ⟨hs, hdata⟩ := Decoder.saveError_none
    { d with data := { d.data with
        Temperature := (storeField 0 (decodeUint 32) d.data.Temperature v).1 } }
    (storeField 0 (decodeUint 32) d.data.Temperature v).2 v "136"
  refine ⟨?_, ?_⟩
  · simp only [Decoder.member]
    rw [hs, hacc]
  · intro ha key
    have h1 := storeField_fst 0 (decodeUint 32) d.data.Temperature v (hacc.2 ha)
    simp only [Decoder.member]
    rw [hdata]
    by_cases hk : key = "136"
    · subst hk
      simp only [Pc321State.field, h1, if_true]
      cases v <;> simp [Width.stored, Width.decode]
    · rw [if_neg hk]
      unfold Pc321State.field
      split <;> first | rfl | exact absurd rfl hk

theorem Decoder.member_137 (d : Decoder) (v : JValue) :
    ((d.member "137" v).savedError = none ↔
        d.savedError = none ∧ Width.uint8.accepts v = true) ∧
      (Width.uint8.accepts v = true → ∀ key, (d.member "137" v).data.field key =
        if key = "137" then Width.uint8.stored v else d.data.field key) := by
  have h2 := storeField_snd 0 (decodeUint 8) d.data.DeviceStatus v
  have hacc : (storeField 0 (decodeUint 8) d.data.DeviceStatus v).2 = false ↔
      Width.uint8.accepts v = true := by
    rw [h2]
    cases v <;> simp [Width.accepts, Width.decode]
  obtain ⟨hs, hdata⟩ := Decoder.saveError_none
    { d with data := { d.data with
        DeviceStatus := (storeField 0 (decodeUint 8) d.data.DeviceStatus v).1 } }
    (storeField 0 (decodeUint 8) d.data.DeviceStatus v).2 v "137"
  refine ⟨?_, ?_⟩
  · simp only [Decoder.member]
    rw [hs, hacc]
  · intro ha key
    have h1 := storeField_fst 0 (decodeUint 8) d.data.DeviceStatus v (hacc.2 ha)
    simp only [Decoder.member]
    rw [hdata]
    by_cases hk : key = "137"
    · subst hk
      simp only [Pc321State.field, h1, if_true]
      cases v <;> simp [Width.stored, Width.decode]
    · rw [if_neg hk]
      unfold Pc321State.field
      split <;> first | rfl | exact absurd rfl hk

theorem Decoder.member_138 (d : Decoder) (v : JValue) :
    ((d.member "138" v).savedError = none ↔
        d.savedError = none ∧ Width.uint8.accepts v = true) ∧
      (Width.uint8.accepts v = true → ∀ key, (d.member "138" v).data.field key =
        if key = "138" then Width.uint8.stored v else d.data.field key) := by
  have h2 := storeField_snd 0 (decodeUint 8) d.data.PhaseSeqDetection v
  have hacc : (storeField 0 (decodeUint 8) d.data.PhaseSeqDetection v).2 = false ↔
      Width.uint8.accepts v = true := by
    rw [h2]
    cases v <;> simp [Width.accepts, Width.decode]
  obtain ⟨hs, hdata⟩ := Decoder.saveError_none
    { d with data := { d.data with
        PhaseSeqDetection := (storeField 0 (decodeUint 8) d.data.PhaseSeqDetection v).1 } }
    (storeField 0 (decodeUint 8) d.data.PhaseSeqDetection v).2 v "138"
  refine ⟨?_, ?_⟩
  · simp only [Decoder.member]
    rw [hs, hacc]
  · intro ha key
    have h1 := storeField_fst 0 (decodeUint 8) d.data.PhaseSeqDetection v (hacc.2 ha)
    simp only [Decoder.member]
    rw [hdata]
    by_cases hk : key = "138"
    · subst hk
      simp only [Pc321State.field, h1, if_true]
      cases v <;> simp [Width.stored, Width.decode]
    · rw [if_neg hk]
      unfold Pc321State.field
      split <;> first | rfl | exact absurd rfl hk

theorem Decoder.member_recognized (d : Decoder) (k : String) (v : JValue) (w : Width)
    (hw : fieldWidth k = some w) :
    ((d.member k v).savedError = none ↔ d.savedError = none ∧ w.accepts v = true) ∧
      (w.accepts v = true → ∀ key, (d.member k v).data.field key =
        if key = k then w.stored v else d.data.field key) := by
  unfold fieldWidth at hw
  split at hw
  · cases hw
    exact Decoder.member_101 d v
  · cases hw
    exact Decoder.member_102 d v
  · cases hw
    exact Decoder.member_103 d v
  · cases hw
    exact Decoder.member_104 d v
  · cases hw
    exact Decoder.member_106 d v
  · cases hw
    exact Decoder.member_111 d v
  · cases hw
    exact Decoder.member_112 d v
  · cases hw
    exact Decoder.member_113 d v
  · cases hw
    exact Decoder.member_114 d v
  · cases hw
    exact Decoder.member_116 d v
  · cases hw
    exact Decoder.member_121 d v
  · cases hw
    exact Decoder.member_122 d v
  · cases hw
    exact Decoder.member_123 d v
  · cases hw
    exact Decoder.member_124 d v
  · cases hw
    exact Decoder.member_126 d v
  · cases hw
    exact Decoder.member_131 d v
  · cases hw
    exact Decoder.member_132 d v
  · cases hw
    exact Decoder.member_133 d v
  · cases hw
    exact Decoder.member_135 d v
  · cases hw
    exact Decoder.member_136 d v
  · cases hw
    exact Decoder.member_137 d v
  · cases hw
    exact Decoder.member_138 d v
  · cases hw

theorem decodeObject_snoc (init : List (String × JValue)) (kv : String × JValue) :
    decodeObject (init ++ [kv]) = (decodeObject init).member kv.1 kv.2 := by
  simp [decodeObject, List.foldl_append]

theorem lastValue_snoc (init : List (String × JValue)) (kv : String × JValue) (key : String) :
    lastValue (init ++ [kv]) key = if kv.1 = key then some kv.2 else lastValue init key := by
  simp [lastValue, List.foldl_append]

theorem Pc321State.field_zero (key : String) : Pc321State.field {} key = none := by
  unfold Pc321State.field
  split <;> rfl

theorem decodeObject_spec (members : List (String × JValue)) :
    ((decodeObject members).savedError = none ↔
        ∀ kv ∈ members, ∀ w, fieldWidth kv.1 = some w → w.accepts kv.2 = true) ∧
      ((decodeObject members).savedError = none → ∀ key w, fieldWidth key = some w →
        (decodeObject members).data.field key =
          match lastValue members key with
          | some v => w.stored v
          | none => none) := by
  induction members using List.reverseRecOn with
  | nil =>
    refine ⟨by simp [decodeObject], fun _ key w _ => ?_⟩
    simp [decodeObject, lastValue, Pc321State.field_zero]
  | append_singleton init kv ih =>
    obtain ⟨ih1, ih2⟩ := ih
    rw [decodeObject_snoc]
    cases hk : fieldWidth kv.1 with
    | none =>
      rw [Decoder.member_unrecognized _ _ _ hk]
      constructor
      · rw [ih1]
        constructor
        · intro h x hx w hw
          rcases List.mem_append.1 hx with hx | hx
          · exact h x hx w hw
          · rw [List.mem_singleton.1 hx, hk] at hw
            exact absurd hw (by simp)
        · intro h x hx w hw
          exact h x (List.mem_append_left _ hx) w hw
      · intro hs key w hw
        have hne : ¬ kv.1 = key := by
          intro hc
          rw [hc, hw] at hk
          exact absurd hk (by simp)
        rw [lastValue_snoc, if_neg hne]
        exact ih2 hs key w hw
    | some w0 =>
      obtain ⟨hs, hf⟩ := Decoder.member_recognized (decodeObject init) kv.1 kv.2 w0 hk
      constructor
      · rw [hs, ih1]
        constructor
        · rintro ⟨h, ha⟩ x hx w hw
          rcases List.mem_append.1 hx with hx | hx
          · exact h x hx w hw
          · rw [List.mem_singleton.1 hx] at hw ⊢
            rw [hk] at hw
            cases hw
            exact ha
        · intro h
          exact ⟨fun x hx w hw => h x (List.mem_append_left _ hx) w hw,
            h kv (List.mem_append_right _ (List.mem_singleton_self _)) w0 hk⟩
      · intro hsave key w hw
        obtain ⟨hinit, ha⟩ := hs.1 hsave
        rw [hf ha key, lastValue_snoc]
        by_cases hkey : key = kv.1
        · subst hkey
          rw [hk] at hw
          cases hw
          simp
        · have hne : ¬ kv.1 = key := fun hc => hkey hc.symm
          rw [if_neg hkey, if_neg hne]
          exact ih2 hinit key w hw

theorem Decoder.saveError_some (d : Decoder) (failed : Bool) (v : JValue) (key : String)
    (e : DecodeError) (h : d.savedError = some e) :
    (Decoder.saveError d failed v key).savedError = some e := by
  unfold Decoder.saveError
  simp [h]

theorem Decoder.member_keeps_first (d : Decoder) (key : String) (v : JValue) (e : DecodeError)
    (h : d.savedError = some e) : (d.member key v).savedError = some e := by
  unfold Decoder.member
  split <;> first | exact h | exact Decoder.saveError_some _ _ _ _ e h

theorem Decoder.foldl_keeps_first (members : List (String × JValue)) (d : Decoder)
    (e : DecodeError) (h : d.savedError = some e) :
    (members.foldl (fun d kv => d.member kv.1 kv.2) d).savedError = some e := by
  induction members generalizing d with
  | nil => exact h
  | cons kv rest ih => exact ih _ (Decoder.member_keeps_first d kv.1 kv.2 e h)

theorem Decoder.member_null (d : Decoder) (key : String) (h : d.data.field key = none) :
    d.member key .null = d := by
  obtain ⟨data, err⟩ := d
  cases data
  unfold Decoder.member
  split <;> simp_all [Pc321State.field, storeField, Decoder.saveError]

theorem lastValue_absent (members : List (String × JValue)) (key : String)
    (h : key ∉ members.map Prod.fst) : lastValue members key = none := by
  induction members using List.reverseRecOn with
  | nil => rfl
  | append_singleton init kv ih =>
    simp only [List.map_append, List.map_cons, List.map_nil, List.mem_append,
      List.mem_singleton, not_or] at h
    rw [lastValue_snoc, if_neg (fun hc => h.2 hc.symm)]
    exact ih h.1

theorem Unmarshal_null_absent (pre post : List (String × JValue)) (key : String)
    (h : key ∉ pre.map Prod.fst) :
    Unmarshal (.document (.object (pre ++ (key, .null) :: post))) =
      Unmarshal (.document (.object (pre ++ post))) := by
  have hfold : ∀ l : List (String × JValue),
      decodeObject (pre ++ l) =
        l.foldl (fun d kv => d.member kv.1 kv.2) (decodeObject pre) := by
    intro l
    simp [decodeObject, List.foldl_append]
  simp only [Unmarshal, hfold, List.foldl_cons]
  cases hs : (decodeObject pre).savedError with
  | some e =>
    rw [Decoder.foldl_keeps_first post _ e (Decoder.member_keeps_first _ key .null e hs),
      Decoder.foldl_keeps_first post _ e hs]
  | none =>
    have hd : (decodeObject pre).member key .null = decodeObject pre := by
      cases hk : fieldWidth key with
      | none => exact Decoder.member_unrecognized _ _ _ hk
      | some w =>
        apply Decoder.member_null
        rw [(decodeObject_spec pre).2 hs key w hk, lastValue_absent pre key h]
    rw [hd]

theorem decodeUint_integer (bits : Nat) (a : Nat) (hb : bits ≤ 64) (h : a < 2 ^ bits) :
    decodeUint bits (.integer false a) = some a := by
  have h64 : a < 2 ^ 64 := lt_of_lt_of_le h (Nat.pow_le_pow_right (by norm_num) hb)
  simp only [decodeUint, Bool.false_eq_true, if_false]
  rw [if_neg (by omega), if_neg (by omega)]

theorem decodeInt32_integer (neg : Bool) (a : Nat)
    (hlo : -(2 : Int) ^ 31 ≤ (if neg then -(a : Int) else (a : Int)))
    (hhi : (if neg then -(a : Int) else (a : Int)) ≤ 2 ^ 31 - 1) :
    decodeInt 32 (.integer neg a) = some (if neg then -(a : Int) else (a : Int)) := by
  cases neg
  · simp only [Bool.false_eq_true, if_false] at hlo hhi
    simp only [decodeInt, Bool.false_eq_true, if_false]
    rw [if_neg (by omega), if_neg (by omega)]
  · simp only [if_true] at hlo hhi
    simp only [decodeInt, if_true]
    rw [if_neg (by omega), if_neg (by omega)]

/-- The number literals the decoder accepts for a field: the plain integer literals (no
fraction, no exponent) whose value lies in the range of the field's type, without a minus sign
when the type is unsigned. -/
theorem Width.decode_iff (w : Width) (n : JNumber) (z : Int) :
    w.decode n = some z ↔
      ∃ neg a, n = .integer neg a ∧ z = (if neg then -(a : Int) else (a : Int)) ∧
        w.lo ≤ z ∧ z ≤ w.hi ∧ (w ≠ .int32 → neg = false) := by
  constructor
  · intro h
    cases w with
    | uint32 =>
      simp only [Width.decode, Option.map_eq_some'] at h
      obtain ⟨x, hx, rfl⟩ := h
      obtain ⟨rfl, hlt⟩ := decodeUint_some 32 n x hx
      exact ⟨false, x, rfl, by simp, by simp [Width.lo],
        by simp only [Width.hi, Int.ofNat_eq_coe]; omega, fun _ => rfl⟩
    | uint8 =>
      simp only [Width.decode, Option.map_eq_some'] at h
      obtain ⟨x, hx, rfl⟩ := h
      obtain ⟨rfl, hlt⟩ := decodeUint_some 8 n x hx
      exact ⟨false, x, rfl, by simp, by simp [Width.lo],
        by simp only [Width.hi, Int.ofNat_eq_coe]; omega, fun _ => rfl⟩
    | int32 =>
      simp only [Width.decode] at h
      obtain ⟨⟨neg, a, rfl, hz⟩, hlo, hhi⟩ := decodeInt_some 32 n z h
      exact ⟨neg, a, rfl, hz, by simp only [Width.lo]; omega, by simp only [Width.hi]; omega,
        fun hc => absurd rfl hc⟩
  · rintro ⟨neg, a, rfl, rfl, hlo, hhi, hneg⟩
    cases w with
    | uint32 =>
      have hn := hneg (by simp)
      subst hn
      simp only [Width.hi, Bool.false_eq_true, if_false] at hhi
      simp [Width.decode, decodeUint_integer 32 a (by norm_num) (by omega)]
    | uint8 =>
      have hn := hneg (by simp)
      subst hn
      simp only [Width.hi, Bool.false_eq_true, if_false] at hhi
      simp [Width.decode, decodeUint_integer 8 a (by norm_num) (by omega)]
    | int32 =>
      simp only [Width.lo, Width.hi] at hlo hhi
      simp only [Width.decode]
      exact decodeInt32_integer neg a (by omega) (by omega)

/-- C11, as stated, fails: register 101 carries the non-null number `1e2`, whose value 100 is
within the range of `uint32`, and decoding returns an error instead of a reading with the
field populated. -/
theorem exponent_literal_in_range_rejected :
    fieldWidth "101" = some .uint32 ∧
      (JNumber.scientific false 1 0 2).value = 100 ∧
      (Width.uint32.lo : ℚ) ≤ (JNumber.scientific false 1 0 2).value ∧
      (JNumber.scientific false 1 0 2).value ≤ (Width.uint32.hi : ℚ) ∧
      ¬ ∃ data, Unmarshal (.document (.object [("101", .number (.scientific false 1 0 2))])) =
        .ok data := by
  refine ⟨rfl, by norm_num [JNumber.value], by norm_num [JNumber.value, Width.lo],
    by norm_num [JNumber.value, Width.hi], ?_⟩
  rintro ⟨data, h⟩
  have herr : ∃ e,
      Unmarshal (.document (.object [("101", .number (.scientific false 1 0 2))])) =
        .error e := ⟨_, rfl⟩
  obtain ⟨e, he⟩ := herr
  rw [he] at h
  cases h

/-- C11, amended: decoding an object succeeds if and only if every member with a recognized
key carries `null` or a number the decoder accepts for the field, that is a plain integer
literal (no fraction, no exponent, no minus sign for an unsigned field) within the range of
the field's type; after a successful decoding each recognized field holds the value of the
last member with its key, and is absent when the key does not occur or that member is `null`;
a `null` member whose key has not occurred before it is treated exactly like an absent key. -/
theorem field_populated_iff (members : List (String × JValue)) :
    ((∃ data, Unmarshal (.document (.object members)) = .ok data) ↔
        ∀ kv ∈ members, ∀ w, fieldWidth kv.1 = some w → w.accepts kv.2 = true) ∧
      (∀ data, Unmarshal (.document (.object members)) = .ok data →
        ∀ key w, fieldWidth key = some w →
          data.field key =
            match lastValue members key with
            | some v => w.stored v
            | none => none) ∧
      (∀ (w : Width) (v : JValue), w.accepts v = true ↔
        v = .null ∨ ∃ n z, v = .number n ∧ w.decode n = some z) ∧
      (∀ (w : Width) (n : JNumber) (z : Int), w.decode n = some z ↔
        ∃ neg a, n = .integer neg a ∧ z = (if neg then -(a : Int) else (a : Int)) ∧
          w.lo ≤ z ∧ z ≤ w.hi ∧ (w ≠ .int32 → neg = false)) ∧
      (∀ (w : Width) (v : JValue), w.stored v = none ↔ ∀ n, v = .number n → w.decode n = none) ∧
      ∀ (pre post : List (String × JValue)) (key : String) (topic : String) (token : Token),
        key ∉ pre.map Prod.fst →
          Unmarshal (.document (.object (pre ++ (key, .null) :: post))) =
              Unmarshal (.document (.object (pre ++ post))) ∧
            iteration ⟨topic, .document (.object (pre ++ (key, .null) :: post))⟩ token =
              iteration ⟨topic, .document (.object (pre ++ post))⟩ token := by
  obtain ⟨h1, h2⟩ := decodeObject_spec members
  refine ⟨?_, ?_, ?_, Width.decode_iff, ?_, ?_⟩
  · rw [← h1]
    simp only [Unmarshal]
    cases hs : (decodeObject members).savedError with
    | none => simp
    | some e => simp
  · intro data hd key w hw
    simp only [Unmarshal] at hd
    cases hs : (decodeObject members).savedError with
    | none =>
      rw [hs] at hd
      simp only [Except.ok.injEq] at hd
      rw [← hd]
      exact h2 hs key w hw
    | some e =>
      rw [hs] at hd
      cases hd
  · intro w v
    cases v <;> simp [Width.accepts, Option.isSome_iff_exists]
  · intro w v
    cases v <;> simp [Width.stored]
  · intro pre post key topic token hk
    have hu := Unmarshal_null_absent pre post key hk
    exact ⟨hu, by simp only [iteration, hu]⟩

/-! ## Exactness of the three-decimal rendering -/

theorem divRNE_eq_of_close (n d N : Nat) (hd : 0 < d)
    (h : |(n : ℚ) / (d : ℚ) - (N : ℚ)| < 1 / 2) : divRNE n d = N := by
  have hdq : (0 : ℚ) < (d : ℚ) := by exact_mod_cast hd
  have h1 := divRNE_error_rat n d hd
  have h2 : |(divRNE n d : ℚ) - (n : ℚ) / (d : ℚ)| ≤ 1 / 2 := by
    have : (divRNE n d : ℚ) - (n : ℚ) / (d : ℚ) =
        ((divRNE n d : ℚ) * (d : ℚ) - (n : ℚ)) / (d : ℚ) := by
      field_simp
    rw [this, abs_div, abs_of_pos hdq, div_le_iff₀ hdq]
    linarith
  have h3 : |(divRNE n d : ℚ) - (N : ℚ)| < 1 := by
    have := abs_add ((divRNE n d : ℚ) - (n : ℚ) / (d : ℚ)) ((n : ℚ) / (d : ℚ) - (N : ℚ))
    have he : (divRNE n d : ℚ) - (n : ℚ) / (d : ℚ) + ((n : ℚ) / (d : ℚ) - (N : ℚ)) =
        (divRNE n d : ℚ) - (N : ℚ) := by ring
    rw [he] at this
    linarith
  have h4 : |((divRNE n d : Int) - (N : Int))| < 1 := by
    have : ((|((divRNE n d : Int) - (N : Int))| : Int) : ℚ) < ((1 : Int) : ℚ) := by
      push_cast
      exact h3
    exact_mod_cast this
  have h5 := Int.abs_lt_one_iff.1 h4
  omega

theorem nat_eq_of_close (a b : Nat) (h : |(a : ℚ) - (b : ℚ)| < 1 / 2) : a = b := by
  have h4 : |((a : Int) - (b : Int))| < 1 := by
    have : ((|((a : Int) - (b : Int))| : Int) : ℚ) < ((1 : Int) : ℚ) := by
      push_cast
      linarith
    exact_mod_cast this
  have h5 := Int.abs_lt_one_iff.1 h4
  omega

/-- The integer that `F64.formatFixed 3` renders is the one within a half of the value times
1000. -/
theorem F64.formatFixed_of_close (neg : Bool) (m : Nat) (e : Int) (N : Nat)
    (h : |(m : ℚ) * (2 : ℚ) ^ e * 1000 - (N : ℚ)| < 1 / 2) :
    F64.formatFixed 3 (.finite neg m e) = fixed3Text neg N := by
  have hs : (if 0 ≤ e then m * 2 ^ e.toNat * 10 ^ 3
      else divRNE (m * 10 ^ 3) (2 ^ (-e).toNat)) = N := by
    by_cases he : 0 ≤ e
    · rw [if_pos he]
      apply nat_eq_of_close
      have hz : e = ((e.toNat : Nat) : Int) := by omega
      have : ((m * 2 ^ e.toNat * 10 ^ 3 : Nat) : ℚ) = (m : ℚ) * (2 : ℚ) ^ e * 1000 := by
        rw [hz, zpow_natCast]
        push_cast
        simp only [Int.toNat_ofNat]
      rw [this]
      exact h
    · rw [if_neg he]
      apply divRNE_eq_of_close _ _ _ (by positivity)
      have hz : e = -(((-e).toNat : Nat) : Int) := by omega
      have : ((m * 10 ^ 3 : Nat) : ℚ) / ((2 ^ (-e).toNat : Nat) : ℚ) =
          (m : ℚ) * (2 : ℚ) ^ e * 1000 := by
        rw [hz, zpow_neg, zpow_natCast]
        push_cast
        simp only [neg_neg, Int.toNat_ofNat]
        field_simp
      rw [this]
      exact h
  simp only [F64.formatFixed, show ¬ (3 = 0) by norm_num, if_false, hs, fixed3Text]
  norm_num

theorem Group.scaled_sign (g : Group) (v : Int) (h : v.natAbs < 2 ^ 32) :
    ∃ m e, g.scaled v = .finite (decide (v < 0)) m e := by
  have hb : bitLen v.natAbs ≤ 32 := bitLen_le_of_lt _ _ h
  obtain ⟨m1, x1, h1, hm1, hx1⟩ :=
    F64.round_finite (decide (v < 0)) v.natAbs 0 (by omega)
  have hbne : (decide (v < 0) != false) = decide (v < 0) := by
    cases decide (v < 0) <;> rfl
  have key : ∀ (M : Nat) (E : Int), M < 2 ^ 53 → E ≤ -56 →
      ∃ m e, F64.mul (F64.ofInt v) (.finite false M E) = .finite (decide (v < 0)) m e := by
    intro M E hM hE
    have hbm := bitLen_mul_le m1 M
    have hb1 := bitLen_le_of_lt m1 53 hm1
    have hb2 := bitLen_le_of_lt M 53 hM
    obtain ⟨m2, x2, h2, _, _⟩ :=
      F64.round_finite (decide (v < 0) != false) (m1 * M) (x1 + E) (by omega)
    exact ⟨m2, x2, by rw [F64.ofInt, h1, F64.mul, h2, hbne]⟩
  cases g
  · exact key _ _ (by norm_num) (by norm_num)
  · exact key _ _ (by norm_num) (by norm_num)
  · exact ⟨m1, x1, h1⟩
  · exact key _ _ (by norm_num) (by norm_num)
  · exact key _ _ (by norm_num) (by norm_num)
  · exact ⟨m1, x1, h1⟩
  · exact key _ _ (by norm_num) (by norm_num)

theorem Group.milli_eq (g : Group) : (g.milli : ℚ) = 1000 * g.factor := by
  cases g <;> norm_num [Group.milli, Group.factor]

theorem Group.milli_pos (g : Group) : 0 < g.milli ∧ g.milli ≤ 1000 := by
  cases g <;> simp [Group.milli]

/-- The text of a metric is the exact rendering of the raw value times the group's factor in
thousandths. -/
theorem Group.format_scaled (g : Group) (v : Int) (h : v.natAbs < 2 ^ 32) :
    F64.formatFixed 3 (g.scaled v) = fixed3Text (decide (v < 0)) (v.natAbs * g.milli) := by
  obtain ⟨m, e, hform⟩ := g.scaled_sign v h
  obtain ⟨q, hq, herr⟩ := g.scaled_error v h
  rw [hform] at hq ⊢
  simp only [F64.toRat, Option.some.injEq] at hq
  apply F64.formatFixed_of_close
  have hsv := sign_mul_natAbs v
  have habs : |(v : ℚ)| = (v.natAbs : ℚ) := by
    rw [Nat.cast_natAbs]
    push_cast
    rfl
  have hsign : |(if decide (v < 0) = true then (-1 : ℚ) else 1)| = 1 := by
    split <;> simp
  have hsplit : q - (v : ℚ) * g.factor =
      (if decide (v < 0) = true then (-1 : ℚ) else 1) *
        ((m : ℚ) * (2 : ℚ) ^ e - (v.natAbs : ℚ) * g.factor) := by
    rw [← hq, ← hsv]
    ring
  rw [hsplit, abs_mul, hsign, one_mul, habs] at herr
  have hf0 : (0 : ℚ) ≤ g.factor := by
    cases g <;> norm_num [Group.factor]
  have hn : ((v.natAbs : Nat) : ℚ) < 4294967296 := by exact_mod_cast h
  have hn0 : (0 : ℚ) ≤ (v.natAbs : ℚ) := by positivity
  have hm := g.milli_eq
  have hm1 : (g.milli : ℚ) ≤ 1000 := by exact_mod_cast g.milli_pos.2
  have hcast : ((v.natAbs * g.milli : Nat) : ℚ) = (v.natAbs : ℚ) * (1000 * g.factor) := by
    push_cast
    rw [hm]
  rw [hcast]
  have hrew : (m : ℚ) * (2 : ℚ) ^ e * 1000 - (v.natAbs : ℚ) * (1000 * g.factor) =
      ((m : ℚ) * (2 : ℚ) ^ e - (v.natAbs : ℚ) * g.factor) * 1000 := by ring
  rw [hrew, abs_mul, abs_of_pos (by norm_num : (0 : ℚ) < 1000)]
  have hbound : (v.natAbs : ℚ) * g.factor * (2 : ℚ) ^ (-51 : Int) * 1000 < 1 / 2 := by
    have h1 : (v.natAbs : ℚ) * g.factor * 1000 ≤ 4294967296 * 1000 := by
      have : (v.natAbs : ℚ) * (1000 * g.factor) ≤ 4294967296 * 1000 := by
        rw [← hm]
        exact mul_le_mul (le_of_lt hn) hm1 (by positivity) (by norm_num)
      linarith
    have h2 : (2 : ℚ) ^ (-51 : Int) * (4294967296 * 1000) < 1 / 2 := by norm_num [zpow_neg]
    have h3 : (0 : ℚ) < (2 : ℚ) ^ (-51 : Int) := by positivity
    nlinarith [mul_le_mul_of_nonneg_left h1 (le_of_lt h3)]
  exact lt_of_le_of_lt (mul_le_mul_of_nonneg_right herr (by norm_num : (0 : ℚ) ≤ 1000)) hbound

theorem digitChar_value (k : Nat) (h : k < 10) : (Nat.digitChar k).toNat - 48 = k := by
  interval_cases k <;> decide

theorem toDigitsCore_value (fuel : Nat) : ∀ (n : Nat) (ds : List Char), n < fuel →
    (Nat.toDigitsCore 10 fuel n ds).foldl (fun acc c => acc * 10 + (c.toNat - 48)) 0 =
      ds.foldl (fun acc c => acc * 10 + (c.toNat - 48)) n := by
  induction fuel with
  | zero =>
    intro n ds h
    omega
  | succ fuel ih =>
    intro n ds h
    have hd := digitChar_value (n % 10) (Nat.mod_lt _ (by norm_num))
    simp only [Nat.toDigitsCore]
    split
    · rename_i h0
      simp only [List.foldl_cons, hd, zero_mul, zero_add]
      congr 1
      omega
    · rename_i h0
      rw [ih (n / 10) _ (by omega)]
      simp only [List.foldl_cons, hd]
      congr 1
      omega

theorem digitsValue_toDigits (n : Nat) : digitsValue (Nat.toDigits 10 n) = n := by
  simp only [digitsValue, Nat.toDigits]
  rw [toDigitsCore_value (n + 1) n [] (by omega)]
  rfl

theorem digitsValue_padDigits (w n : Nat) : digitsValue (F64.padDigits w n) = n := by
  have hz : ∀ k : Nat, (List.replicate k '0').foldl
      (fun acc c => acc * 10 + (c.toNat - 48)) 0 = 0 := by
    intro k
    induction k with
    | zero => rfl
    | succ k ih =>
      simp only [List.replicate_succ, List.foldl_cons]
      exact ih
  simp only [digitsValue, F64.padDigits, List.foldl_append, hz]
  exact digitsValue_toDigits n

theorem fixed3Text_data (neg : Bool) (n : Nat) :
    (fixed3Text neg n).data =
      (if neg then ['-'] else []) ++ Nat.toDigits 10 (n / 1000) ++
        '.' :: F64.padDigits 3 (n % 1000) := by
  cases neg <;> simp [fixed3Text, String.data_append]

theorem fixed3Text_injective (b1 b2 : Bool) (n1 n2 : Nat)
    (h : fixed3Text b1 n1 = fixed3Text b2 n2) : b1 = b2 ∧ n1 = n2 := by
  have hd : (fixed3Text b1 n1).data = (fixed3Text b2 n2).data := by rw [h]
  rw [fixed3Text_data, fixed3Text_data] at hd
  have hl1 := F64.padDigits_length 3 (n1 % 1000) (by norm_num) (Nat.mod_lt _ (by norm_num))
  have hl2 := F64.padDigits_length 3 (n2 % 1000) (by norm_num) (Nat.mod_lt _ (by norm_num))
  obtain ⟨hpre, hsuf⟩ := List.append_inj' hd (by simp [hl1, hl2])
  have hfp : F64.padDigits 3 (n1 % 1000) = F64.padDigits 3 (n2 % 1000) := by
    simpa using hsuf
  have hmod : n1 % 1000 = n2 % 1000 := by
    have := congrArg digitsValue hfp
    rwa [digitsValue_padDigits, digitsValue_padDigits] at this
  have hdig1 := toDigits_isDigit (n1 / 1000)
  have hdig2 := toDigits_isDigit (n2 / 1000)
  have hminus : ('-' : Char).isDigit = false := by decide
  have hb : b1 = b2 := by
    cases b1 <;> cases b2
    · rfl
    · exfalso
      simp only [Bool.false_eq_true, if_false, if_true, List.nil_append,
        List.singleton_append] at hpre
      have hmem : '-' ∈ Nat.toDigits 10 (n1 / 1000) := by
        rw [hpre]
        exact List.mem_cons_self _ _
      rw [hdig1 _ hmem] at hminus
      exact absurd hminus (by simp)
    · exfalso
      simp only [Bool.false_eq_true, if_false, if_true, List.nil_append,
        List.singleton_append] at hpre
      have hmem : '-' ∈ Nat.toDigits 10 (n2 / 1000) := by
        rw [← hpre]
        exact List.mem_cons_self _ _
      rw [hdig2 _ hmem] at hminus
      exact absurd hminus (by simp)
    · rfl
  subst hb
  have hip : Nat.toDigits 10 (n1 / 1000) = Nat.toDigits 10 (n2 / 1000) :=
    List.append_cancel_left hpre
  have hdiv : n1 / 1000 = n2 / 1000 := by
    have := congrArg digitsValue hip
    rwa [digitsValue_toDigits, digitsValue_toDigits] at this
  exact ⟨rfl, by omega⟩

/-- C16: the three-decimal rendering loses no information. For every group and every 32-bit
raw value `v`, the exact scaled value `v` times the factor is a whole number of thousandths;
the text of the metric is a sign (present exactly when `v` is negative), integer digits, a
point and three fraction digits that spell exactly the magnitude of the scaled value; and two
raw values whose metrics have the same text are equal. -/
theorem three_decimals_exact (g : Group) (v : Int) (hr : -(2 : Int) ^ 31 ≤ v ∧ v < 2 ^ 32) :
    (v : ℚ) * g.factor * 1000 = ((v * (g.milli : Int) : Int) : ℚ) ∧
      (∃ ip fp : List Char,
        (F64.formatFixed 3 (g.scaled v)).data =
            (if v < 0 then ['-'] else []) ++ ip ++ '.' :: fp ∧
          ip ≠ [] ∧ fp.length = 3 ∧ (∀ c ∈ ip ++ fp, c.isDigit = true) ∧
          (digitsValue ip : ℚ) + (digitsValue fp : ℚ) / 1000 = |(v : ℚ)| * g.factor) ∧
      ∀ w : Int, -(2 : Int) ^ 31 ≤ w ∧ w < 2 ^ 32 →
        F64.formatFixed 3 (g.scaled w) = F64.formatFixed 3 (g.scaled v) → w = v := by
  have hv : v.natAbs < 2 ^ 32 := by omega
  have hm := g.milli_eq
  refine ⟨?_, ?_, ?_⟩
  · push_cast
    rw [hm]
    ring
  · refine ⟨Nat.toDigits 10 (v.natAbs * g.milli / 1000),
      F64.padDigits 3 (v.natAbs * g.milli % 1000), ?_, toDigits_ne_nil _,
      F64.padDigits_length 3 _ (by norm_num) (Nat.mod_lt _ (by norm_num)), ?_, ?_⟩
    · rw [g.format_scaled v hv, fixed3Text_data]
      by_cases hneg : v < 0 <;> simp [hneg]
    · intro c hc
      rcases List.mem_append.1 hc with hc | hc
      · exact toDigits_isDigit _ c hc
      · exact F64.padDigits_isDigit 3 _ c hc
    · rw [digitsValue_toDigits, digitsValue_padDigits]
      have habs : |(v : ℚ)| = (v.natAbs : ℚ) := by
        rw [Nat.cast_natAbs]
        push_cast
        rfl
      have hdm := Nat.div_add_mod (v.natAbs * g.milli) 1000
      have hq : ((1000 * (v.natAbs * g.milli / 1000) + v.natAbs * g.milli % 1000 : Nat) : ℚ) =
          ((v.natAbs * g.milli : Nat) : ℚ) := by rw [hdm]
      push_cast at hq
      rw [habs]
      have hne : (1000 : ℚ) ≠ 0 := by norm_num
      field_simp
      rw [hm] at hq
      linarith
  · intro w hw heq
    have hwn : w.natAbs < 2 ^ 32 := by omega
    rw [g.format_scaled w hwn, g.format_scaled v hv] at heq
    obtain ⟨hb, hn⟩ := fixed3Text_injective _ _ _ _ heq
    have hpos := g.milli_pos.1
    have habs : w.natAbs = v.natAbs := Nat.eq_of_mul_eq_mul_right hpos hn
    have hsign : (w < 0 ↔ v < 0) := by
      constructor
      · intro h1
        have : decide (w < 0) = true := decide_eq_true h1
        rw [hb] at this
        exact of_decide_eq_true this
      · intro h1
        have : decide (v < 0) = true := decide_eq_true h1
        rw [← hb] at this
        exact of_decide_eq_true this
    omega

theorem three_decimals_exact_witness :
    (-(2 : Int) ^ 31 ≤ 123456 ∧ (123456 : Int) < 2 ^ 32) ∧
      ((123456 : Int) : ℚ) * Group.energy.factor * 1000 =
        (((123456 : Int) * (Group.energy.milli : Int) : Int) : ℚ) :=
  ⟨by decide, (three_decimals_exact .energy 123456 (by decide)).1⟩

end Pc321
